import Mathlib

/-!
The program loki-index-dump: the label/value index dumper.

A shallow embedding of `main.go` (package `main`) together with the parts of the
Go standard library its behaviour depends on (`unicode/utf8`, `unicode`,
`strings`, `bufio`).

* A Go `string` is an arbitrary byte sequence; it is a list of byte values here, and
  `strings.TrimSpace` is embedded with its UTF-8 decoding, forwards and backwards.
* What a run depends on from outside (the environment, the search path, the
  external commands, the clock, the encoder, the file system) is a `World`; the
  result of `cmd.Output()` may differ from one spawned command to the next.
* What a run does is a list of `Event`s in the order it happens: lines printed,
  calls of `getLabels`, `getLabelValues` and `saveIndexData`, processes spawned,
  files written.
* The second half of the file proves, first, that `strings.TrimSpace` removes
  exactly the surrounding whitespace characters (`strings.TrimSpace_eq`), then that
  the scanning loop of `getLabels` and `getLabelValues` computes the parsing rule
  of the specification (`scanLoop_ok`), and last the properties of `dumpIndex`.
-/

set_option autoImplicit false

/-- A Go `string`: a sequence of bytes (each value is a `uint8`, held as a `Nat`). -/
abbrev GoString := List Nat

/-! ## `unicode/utf8` -/

namespace utf8

/-- The "error" rune `U+FFFD`. -/
def RuneError : Nat := 0xFFFD
/-- Bytes below `RuneSelf` are single-byte runes. -/
def RuneSelf : Nat := 0x80
/-- Maximum number of bytes of an encoded rune. -/
def UTFMax : Nat := 4

def locb : Nat := 0x80
def hicb : Nat := 0xBF

/-- The table `first` combined with `acceptRanges`: for a leading byte of a
multi-byte sequence, the size of the sequence and the accepted range of the
second byte; `none` for the one-byte cases (`as`, `xx`). -/
def first (b : Nat) : Option (Nat × Nat × Nat) :=
  if b < 0xC2 then none
  else if b ≤ 0xDF then some (2, locb, hicb)
  else if b = 0xE0 then some (3, 0xA0, hicb)
  else if b ≤ 0xEC then some (3, locb, hicb)
  else if b = 0xED then some (3, locb, 0x9F)
  else if b ≤ 0xEF then some (3, locb, hicb)
  else if b = 0xF0 then some (4, 0x90, hicb)
  else if b ≤ 0xF3 then some (4, locb, hicb)
  else if b = 0xF4 then some (4, locb, 0x8F)
  else none

/-- The function `utf8.DecodeRuneInString`: the first rune of `s` and its width in bytes. -/
def DecodeRuneInString (s : GoString) : Nat × Nat :=
  match s with
  | [] => (RuneError, 0)
  | s0 :: _ =>
    if s0 < RuneSelf then (s0, 1)
    else
      match first s0 with
      | none => (RuneError, 1)
      | some (sz, lo, hi) =>
        if s.length < sz then (RuneError, 1)
        else
          let s1 := s.getD 1 0
          if s1 < lo ∨ hi < s1 then (RuneError, 1)
          else if sz ≤ 2 then (((s0 &&& 0x1F) <<< 6) ||| (s1 &&& 0x3F), 2)
          else
            let s2 := s.getD 2 0
            if s2 < locb ∨ hicb < s2 then (RuneError, 1)
            else if sz ≤ 3 then
              (((s0 &&& 0x0F) <<< 12) ||| ((s1 &&& 0x3F) <<< 6) ||| (s2 &&& 0x3F), 3)
            else
              let s3 := s.getD 3 0
              if s3 < locb ∨ hicb < s3 then (RuneError, 1)
              else
                (((s0 &&& 0x07) <<< 18) ||| ((s1 &&& 0x3F) <<< 12) ||| ((s2 &&& 0x3F) <<< 6)
                  ||| (s3 &&& 0x3F), 4)

/-- The function `utf8.RuneStart`: the byte is not a continuation byte. -/
def RuneStart (b : Nat) : Bool := (b &&& 0xC0) != 0x80

/-- The backward loop `for start--; start >= lim; start--` of `DecodeLastRuneInString`,
entered with the value of `start` before the first decrement; a negative result
is clamped to `0` as the code does after the loop. -/
def lastStart (s : GoString) (lim : Nat) : Nat → Nat
  | 0 => 0
  | v + 1 =>
    if v < lim then v
    else if RuneStart (s.getD v 0) then v
    else lastStart s lim v

/-- The function `utf8.DecodeLastRuneInString`: the last rune of `s` and its width. -/
def DecodeLastRuneInString (s : GoString) : Nat × Nat :=
  let end_ := s.length
  if end_ = 0 then (RuneError, 0)
  else
    let r := s.getD (end_ - 1) 0
    if r < RuneSelf then (r, 1)
    else
      let lim := end_ - UTFMax
      let start := lastStart s lim (end_ - 1)
      let d := DecodeRuneInString (s.drop start)
      if start + d.2 ≠ end_ then (RuneError, 1) else d

end utf8

/-! ## `unicode` -/

namespace unicode

/-- The function `unicode.IsSpace`: the Latin-1 switch and the `White_Space` range table. -/
def IsSpace (r : Nat) : Bool :=
  if r ≤ 0xFF then
    r = 0x09 ∨ r = 0x0A ∨ r = 0x0B ∨ r = 0x0C ∨ r = 0x0D ∨ r = 0x20 ∨ r = 0x85 ∨ r = 0xA0
  else
    r = 0x1680 ∨ (0x2000 ≤ r ∧ r ≤ 0x200A) ∨ r = 0x2028 ∨ r = 0x2029 ∨ r = 0x202F
      ∨ r = 0x205F ∨ r = 0x3000

end unicode

/-! ## `strings` -/

namespace strings

/-- The table `asciiSpace`: tab, newline, vertical tab, form feed, carriage return, space. -/
def asciiSpace (c : Nat) : Bool :=
  c = 0x09 ∨ c = 0x0A ∨ c = 0x0B ∨ c = 0x0C ∨ c = 0x0D ∨ c = 0x20

/-- The `for i, r := range s` loop of `indexFunc` on the rest `s` of the string at
offset `i`; every iteration consumes at least one byte, so `fuel = len(s)` suffices. -/
def indexFuncLoop (f : Nat → Bool) (truth : Bool) : Nat → GoString → Nat → Option Nat
  | 0, _, _ => none
  | fuel + 1, s, i =>
    if s = [] then none
    else
      let d := utf8.DecodeRuneInString s
      if f d.1 = truth then some i
      else indexFuncLoop f truth fuel (s.drop d.2) (i + d.2)

/-- The function `strings.indexFunc`; `none` stands for `-1`. -/
def indexFunc (s : GoString) (f : Nat → Bool) (truth : Bool) : Option Nat :=
  indexFuncLoop f truth s.length s 0

/-- The `for i := len(s); i > 0;` loop of `lastIndexFunc`. -/
def lastIndexFuncLoop (f : Nat → Bool) (truth : Bool) (s : GoString) : Nat → Nat → Option Nat
  | 0, _ => none
  | fuel + 1, i =>
    if i = 0 then none
    else
      let d := utf8.DecodeLastRuneInString (s.take i)
      if f d.1 = truth then some (i - d.2)
      else lastIndexFuncLoop f truth s fuel (i - d.2)

/-- The function `strings.lastIndexFunc`; `none` stands for `-1`. -/
def lastIndexFunc (s : GoString) (f : Nat → Bool) (truth : Bool) : Option Nat :=
  lastIndexFuncLoop f truth s s.length s.length

/-- The function `strings.TrimLeftFunc`. -/
def TrimLeftFunc (s : GoString) (f : Nat → Bool) : GoString :=
  match indexFunc s f false with
  | none => []
  | some i => s.drop i

/-- The function `strings.TrimRightFunc`. -/
def TrimRightFunc (s : GoString) (f : Nat → Bool) : GoString :=
  match lastIndexFunc s f false with
  | some i =>
    if s.getD i 0 ≥ utf8.RuneSelf then
      s.take (i + (utf8.DecodeRuneInString (s.drop i)).2)
    else s.take (i + 1)
  | none => s.take 0

/-- The function `strings.TrimFunc`. -/
def TrimFunc (s : GoString) (f : Nat → Bool) : GoString :=
  TrimRightFunc (TrimLeftFunc s f) f

/-- First loop of `strings.TrimSpace` over `s[start:]`: the final `start`, and
whether the loop left through the non-ASCII `return`. -/
def trimSpaceStart : GoString → Nat → Nat × Bool
  | [], start => (start, false)
  | c :: rest, start =>
    if c ≥ utf8.RuneSelf then (start, true)
    else if asciiSpace c = false then (start, false)
    else trimSpaceStart rest (start + 1)

/-- Second loop of `strings.TrimSpace`, counting `stop` down towards `start`: the
final `stop`, and whether the loop left through the non-ASCII `return`. -/
def trimSpaceStop (s : GoString) (start : Nat) : Nat → Nat × Bool
  | 0 => (0, false)
  | stop + 1 =>
    if start < stop + 1 then
      let c := s.getD stop 0
      if c ≥ utf8.RuneSelf then (stop + 1, true)
      else if asciiSpace c = false then (stop + 1, false)
      else trimSpaceStop s start stop
    else (stop + 1, false)

/-- The function `strings.TrimSpace`. -/
def TrimSpace (s : GoString) : GoString :=
  match trimSpaceStart s 0 with
  | (start, true) => TrimFunc (s.drop start) unicode.IsSpace
  | (start, false) =>
    match trimSpaceStop s start s.length with
    | (stop, true) => TrimRightFunc ((s.take stop).drop start) unicode.IsSpace
    | (stop, false) => (s.take stop).drop start

/-- The function `strings.HasPrefix`. -/
def HasPrefix (s pfx : GoString) : Bool :=
  s.length ≥ pfx.length ∧ s.take pfx.length = pfx

end strings

/-! ## `bytes` and `bufio` -/

namespace bufio

/-- The constant `bufio.MaxScanTokenSize`: the largest buffer a default `Scanner` allocates. -/
def MaxScanTokenSize : Nat := 64 * 1024

/-- The function `bytes.IndexByte`: index of the first occurrence of `c` in `data`. -/
def IndexByte : GoString → Nat → Option Nat
  | [], _ => none
  | b :: rest, c => if b = c then some 0 else (IndexByte rest c).map (· + 1)

/-- The function `bufio.dropCR`: drops a terminal carriage return from the data. -/
def dropCR (data : GoString) : GoString :=
  if data.length > 0 ∧ data.getD (data.length - 1) 0 = 0x0D then data.take (data.length - 1)
  else data

/-- The split function `bufio.ScanLines`: the number of bytes to advance and the
token found, `none` when no token can be produced from `data` yet. -/
def ScanLines (data : GoString) (atEOF : Bool) : Nat × Option GoString :=
  if atEOF = true ∧ data.length = 0 then (0, none)
  else
    match IndexByte data 0x0A with
    | some i => (i + 1, some (dropCR (data.take i)))
    | none => if atEOF then (data.length, some (dropCR data)) else (0, none)

/-- Outcome of one call of `Scanner.Scan`. -/
inductive ScanOutcome where
  /-- `Scan` returned `true`: the token, and the input left after advancing. -/
  | token (text : GoString) (rest : GoString)
  /-- `Scan` returned `false` at the end of the input, `Err()` is `nil`. -/
  | done
  /-- `Scan` returned `false` and `Err()` is `ErrTooLong`. -/
  | tooLong
  deriving DecidableEq, Repr

/-- One call of `(*Scanner).Scan` with the default buffer and the split function
`ScanLines`, for a scanner over a `strings.Reader` whose input not yet consumed is
`input`.  The buffer is shifted and doubled until it holds `MaxScanTokenSize`
bytes; the split function sees the end of the input only after a read into a
buffer that is not full has returned `io.EOF`, and a full buffer without a token
is `ErrTooLong`. -/
def Scan (input : GoString) : ScanOutcome :=
  let atEOF : Bool := input.length < MaxScanTokenSize
  match ScanLines (input.take MaxScanTokenSize) atEOF with
  | (advance, some token) => .token token (input.drop advance)
  | (_, none) => if atEOF then .done else .tooLong

end bufio

/-! ## The program: data model -/

/-- A Go `map[string][]string`, as an association list holding each key once. -/
abbrev GoMap := List (GoString × List GoString)

namespace GoMap

/-- The value of `make(map[string][]string)`. -/
def empty : GoMap := []

/-- The expression `m[k]` with the comma-ok form: the value stored under `k`, if any. -/
def get : GoMap → GoString → Option (List GoString)
  | [], _ => none
  | (k', v) :: rest, k => if k' = k then some v else get rest k

/-- The assignment `m[k] = v`. -/
def set : GoMap → GoString → List GoString → GoMap
  | [], k, v => [(k, v)]
  | (k', v') :: rest, k, v => if k' = k then (k, v) :: rest else (k', v') :: set rest k v

/-- The keys of the map. -/
def keys (m : GoMap) : List GoString := m.map Prod.fst

end GoMap

/-- The struct `IndexData`. -/
structure IndexData where
  Labels : List GoString
  Values : GoMap
  /-- The `time.Time` of the dump, as an abstract instant. -/
  DumpedAt : Nat
  Days : Int
  deriving DecidableEq, Repr

/-- The bytes of an ASCII string literal of the source. -/
def lit (s : String) : GoString := s.toList.map Char.toNat

/-- The `error` values of the program.  Each constructor is one place of the source
where an error is made; `Error` gives its message. -/
inductive GoError where
  /-- An error returned by `os/exec`, `encoding/json` or `os`, with its message. -/
  | external (text : GoString)
  /-- The error `bufio.ErrTooLong`. -/
  | errTooLong
  /-- `dumpIndex`: `fmt.Errorf("LOKI_ADDR environment variable is not set")`. -/
  | lokiAddrNotSet
  /-- `dumpIndex`: `fmt.Errorf("logcli not found in PATH")`. -/
  | logcliNotFound
  /-- `dumpIndex`: `fmt.Errorf("failed to get labels: %w", err)`. -/
  | getLabelsFailed (err : GoError)
  /-- `dumpIndex`: `fmt.Errorf("failed to save index data: %w", err)`. -/
  | saveFailed (err : GoError)
  /-- `getLabels`: `fmt.Errorf("logcli labels failed: %w", err)`. -/
  | labelsCommandFailed (err : GoError)
  /-- `getLabels`: `fmt.Errorf("failed to parse labels: %w", err)`. -/
  | labelsParseFailed (err : GoError)
  /-- `getLabelValues`: `fmt.Errorf("logcli labels %s failed: %w", label, err)`. -/
  | valuesCommandFailed (label : GoString) (err : GoError)
  /-- `getLabelValues`: `fmt.Errorf("failed to parse label values: %w", err)`. -/
  | valuesParseFailed (err : GoError)
  /-- `saveIndexData`: `fmt.Errorf("failed to marshal index data: %w", err)`. -/
  | marshalFailed (err : GoError)
  /-- `saveIndexData`: `fmt.Errorf("failed to write output file: %w", err)`. -/
  | writeFailed (err : GoError)
  deriving DecidableEq, Repr

/-- The method `Error()`: the message of an error. -/
def GoError.Error : GoError → GoString
  | .external text => text
  | .errTooLong => lit "bufio.Scanner: token too long"
  | .lokiAddrNotSet => lit "LOKI_ADDR environment variable is not set"
  | .logcliNotFound => lit "logcli not found in PATH"
  | .getLabelsFailed err => lit "failed to get labels: " ++ err.Error
  | .saveFailed err => lit "failed to save index data: " ++ err.Error
  | .labelsCommandFailed err => lit "logcli labels failed: " ++ err.Error
  | .labelsParseFailed err => lit "failed to parse labels: " ++ err.Error
  | .valuesCommandFailed label err => lit "logcli labels " ++ label ++ lit " failed: " ++ err.Error
  | .valuesParseFailed err => lit "failed to parse label values: " ++ err.Error
  | .marshalFailed err => lit "failed to marshal index data: " ++ err.Error
  | .writeFailed err => lit "failed to write output file: " ++ err.Error

/-- The external commands the program runs, `exec.Command("logcli", ...)`. -/
inductive Command where
  /-- The command `logcli labels --since <days>d`. -/
  | labels (days : Int)
  /-- The command `logcli labels <label> --since <days>d`. -/
  | labelValues (label : GoString) (days : Int)
  deriving DecidableEq, Repr

/-- The lines the program prints on standard output, one constructor for each
`fmt.Printf` / `fmt.Println` of `dumpIndex`, `getLabels` and `getLabelValues`. -/
inductive Message where
  /-- `"Dumping Loki index data for the last %d days...\n"`. -/
  | dumping (days : Int)
  /-- `"Fetching labels..."`. -/
  | fetchingLabels
  /-- `"Executing: %s\n"` (in `getLabelValues` with two leading blanks). -/
  | executing (cmd : Command)
  /-- `"Found %d labels\n"`. -/
  | foundLabels (n : Nat)
  /-- `"[%d/%d] Fetching values for label: %s\n"`. -/
  | fetchingValues (i n : Nat) (label : GoString)
  /-- `"  Warning: failed to get values for label %s: %v\n"`. -/
  | warning (label : GoString) (err : GoError)
  /-- `"  Found %d values\n"`. -/
  | foundValues (n : Nat)
  /-- `"\nIndex data dumped successfully!\n"`. -/
  | dumped
  /-- `"Labels dumped: %d\n"`. -/
  | labelsDumped (n : Nat)
  /-- `"Output file: %s\n"`. -/
  | outputFile (name : GoString)
  deriving DecidableEq, Repr

/-- What a run does that can be observed from outside, in the order it happens. -/
inductive Event where
  /-- A line printed on standard output. -/
  | print (m : Message)
  /-- The lookup `exec.LookPath("logcli")`. -/
  | lookPath
  /-- A call of `getLabels`. -/
  | callGetLabels (days : Int)
  /-- A call of `getLabelValues`. -/
  | callGetLabelValues (label : GoString) (days : Int)
  /-- A call of `saveIndexData`. -/
  | callSaveIndexData (data : IndexData) (filename : GoString)
  /-- An external process is spawned and waited for: `cmd.Output()`. -/
  | spawn (cmd : Command)
  /-- The call `os.WriteFile(filename, jsonData, 0644)`. -/
  | writeFile (filename : GoString) (jsonData : GoString)
  deriving DecidableEq, Repr

/-- Everything outside the program that a run depends on. -/
structure World where
  /-- The environment variable `LOKI_ADDR`, `none` when it is unset. -/
  LOKI_ADDR : Option GoString
  /-- Whether `exec.LookPath("logcli")` finds the executable. -/
  logcliInPath : Bool
  /-- The result of `cmd.Output()` for the command spawned after `n` earlier ones:
  the captured standard output, or the error. -/
  output : Nat → Command → Except GoError GoString
  /-- The value of `time.Now()`. -/
  now : Nat
  /-- The result of `json.MarshalIndent(data, "", "  ")`. -/
  marshalIndent : IndexData → Except GoError GoString
  /-- The result of `os.WriteFile(filename, jsonData, 0644)`: `none` for `nil`. -/
  writeFile : GoString → GoString → Option GoError

/-- The function `os.Getenv`: the empty string when the variable is unset. -/
def Getenv (v : Option GoString) : GoString := v.getD []

/-! ## The program: `getLabels`, `getLabelValues`, `saveIndexData`, `dumpIndex` -/

/-- The prefix `"http"` tested by `strings.HasPrefix(line, "http")`. -/
def http : GoString := [0x68, 0x74, 0x74, 0x70]

/-- The loop `for scanner.Scan() { ... }` of `getLabels` and of `getLabelValues` (the
two loops are the same text), followed by `scanner.Err()`: the slice built and the
scanner's error.  Every successful `Scan` consumes at least one byte, so the loop
ends within `len(input) + 1` calls. -/
def scanLoop : Nat → GoString → List GoString → List GoString × Option GoError
  | 0, _, acc => (acc, none)
  | fuel + 1, input, acc =>
    match bufio.Scan input with
    | .token text rest =>
      let line := strings.TrimSpace text
      if line ≠ [] ∧ strings.HasPrefix line http = false then scanLoop fuel rest (acc ++ [line])
      else scanLoop fuel rest acc
    | .done => (acc, none)
    | .tooLong => (acc, some .errTooLong)

/-- Lines 145-156 (and 170-181): scanning the captured output `string(output)`. -/
def scanOutput (output : GoString) : List GoString × Option GoError :=
  scanLoop (output.length + 1) output []

/-- The function `getLabels`, as the `n`-th command of the run: its result and its events. -/
def getLabels (w : World) (n : Nat) (days : Int) : Except GoError (List GoString) × List Event :=
  let cmd := Command.labels days
  let events := [Event.callGetLabels days, .print (.executing cmd), .spawn cmd]
  match w.output n cmd with
  | .error err => (.error (.labelsCommandFailed err), events)
  | .ok output =>
    match scanOutput output with
    | (_, some err) => (.error (.labelsParseFailed err), events)
    | (labels, none) => (.ok labels, events)

/-- The function `getLabelValues`, as the `n`-th command of the run. -/
def getLabelValues (w : World) (n : Nat) (label : GoString) (days : Int) :
    Except GoError (List GoString) × List Event :=
  let cmd := Command.labelValues label days
  let events := [Event.callGetLabelValues label days, .print (.executing cmd), .spawn cmd]
  match w.output n cmd with
  | .error err => (.error (.valuesCommandFailed label err), events)
  | .ok output =>
    match scanOutput output with
    | (_, some err) => (.error (.valuesParseFailed err), events)
    | (values, none) => (.ok values, events)

/-- The function `saveIndexData`. -/
def saveIndexData (w : World) (data : IndexData) (filename : GoString) :
    Option GoError × List Event :=
  match w.marshalIndent data with
  | .error err => (some (.marshalFailed err), [.callSaveIndexData data filename])
  | .ok jsonData =>
    let events := [Event.callSaveIndexData data filename, .writeFile filename jsonData]
    match w.writeFile filename jsonData with
    | some err => (some (.writeFailed err), events)
    | none => (none, events)

/-- The variables of `dumpIndex` that change in the loop over the labels. -/
structure LoopState where
  /-- The map `indexData.Values`. -/
  Values : GoMap
  /-- The events of the run so far. -/
  trace : List Event
  /-- The number of commands spawned so far. -/
  spawned : Nat
  deriving DecidableEq, Repr

/-- One iteration of `for i, label := range labels` in `dumpIndex`. -/
def loopBody (w : World) (days : Int) (total : Nat) (st : LoopState) (i : Nat)
    (label : GoString) : LoopState :=
  let r := getLabelValues w st.spawned label days
  let trace := st.trace ++ [Event.print (.fetchingValues (i + 1) total label)] ++ r.2
  match r.1 with
  | .error err =>
    { Values := st.Values, trace := trace ++ [.print (.warning label err)],
      spawned := st.spawned + 1 }
  | .ok values =>
    { Values := st.Values.set label values,
      trace := trace ++ [.print (.foundValues values.length)], spawned := st.spawned + 1 }

/-- The loop `for i, label := range labels` of `dumpIndex`, from index `i` on. -/
def labelLoop (w : World) (days : Int) (total : Nat) : LoopState → Nat → List GoString → LoopState
  | st, _, [] => st
  | st, i, label :: rest => labelLoop w days total (loopBody w days total st i label) (i + 1) rest

/-- The function `dumpIndex`: the error returned (`none` for `nil`) and the events of the run. -/
def dumpIndex (w : World) (days : Int) (outputFile : GoString) : Option GoError × List Event :=
  if Getenv w.LOKI_ADDR = [] then (some .lokiAddrNotSet, [])
  else
    let trace := [Event.print (.dumping days), .lookPath]
    if w.logcliInPath = false then (some .logcliNotFound, trace)
    else
      let r := getLabels w 0 days
      let trace := trace ++ [.print .fetchingLabels] ++ r.2
      match r.1 with
      | .error err => (some (.getLabelsFailed err), trace)
      | .ok labels =>
        let trace := trace ++ [.print (.foundLabels labels.length)]
        let st := labelLoop w days labels.length
          { Values := GoMap.empty, trace := trace, spawned := 1 } 0 labels
        let indexData : IndexData :=
          { Labels := labels, Values := st.Values, DumpedAt := w.now, Days := days }
        let s := saveIndexData w indexData outputFile
        match s.1 with
        | some err => (some (.saveFailed err), st.trace ++ s.2)
        | none =>
          (none, st.trace ++ s.2 ++ [.print .dumped, .print (.labelsDumped labels.length),
            .print (.outputFile outputFile)])

/-- The exit status of `main` after `dumpIndex` returned `err`. -/
def exitStatus (err : Option GoError) : Nat :=
  match err with
  | some _ => 1
  | none => 0

/-- The event is the spawn of an external process. -/
def Event.isSpawn : Event → Bool
  | .spawn _ => true
  | _ => false

/-- The event is a file write. -/
def Event.isWriteFile : Event → Bool
  | .writeFile _ _ => true
  | _ => false

/-- The event is a call of `getLabels`. -/
def Event.isCallGetLabels : Event → Bool
  | .callGetLabels _ => true
  | _ => false

/-- The event is a call of `getLabelValues`. -/
def Event.isCallGetLabelValues : Event → Bool
  | .callGetLabelValues _ _ => true
  | _ => false

/-- The event is a call of `saveIndexData`. -/
def Event.isCallSaveIndexData : Event → Bool
  | .callSaveIndexData _ _ => true
  | _ => false

/-! ## The parsing rule as the specification words it -/

namespace Spec

/-- The text split into lines: the pieces between consecutive line feeds. -/
def splitLines : GoString → List GoString
  | [] => [[]]
  | b :: rest =>
    if b = 0x0A then [] :: splitLines rest
    else
      match splitLines rest with
      | [] => [[b]]
      | line :: lines => (b :: line) :: lines

/-- Whitespace characters removed from the front: as long as the first character
is whitespace it is dropped. -/
def dropLeadingSpace : Nat → GoString → GoString
  | 0, s => s
  | fuel + 1, s =>
    if s = [] then []
    else if unicode.IsSpace (utf8.DecodeRuneInString s).1 then
      dropLeadingSpace fuel (s.drop (utf8.DecodeRuneInString s).2)
    else s

/-- Whitespace characters removed from the back: as long as the last character
is whitespace it is dropped. -/
def dropTrailingSpace : Nat → GoString → GoString
  | 0, s => s
  | fuel + 1, s =>
    if s = [] then []
    else if unicode.IsSpace (utf8.DecodeLastRuneInString s).1 then
      dropTrailingSpace fuel (s.take (s.length - (utf8.DecodeLastRuneInString s).2))
    else s

/-- The line without its leading whitespace. -/
def trimLeft (line : GoString) : GoString := dropLeadingSpace line.length line

/-- The line without its trailing whitespace. -/
def trimRight (line : GoString) : GoString := dropTrailingSpace line.length line

/-- A line with its surrounding whitespace trimmed. -/
def trim (line : GoString) : GoString := trimRight (trimLeft line)

/-- The line begins with the literal prefix `http`. -/
def beginsWithHttp (line : GoString) : Bool := decide (http <+: line)

/-- The output-parsing rule: split into lines, trim each line, discard the lines
that are empty after trimming and those that begin with `http`, keep the others in order. -/
def parse (text : GoString) : List GoString :=
  ((splitLines text).map trim).filter (fun line => decide (line ≠ []) && !beginsWithHttp line)

/-- The characters of a string, in order (the runes of `for _, r := range s`). -/
def runes : Nat → GoString → List Nat
  | 0, _ => []
  | fuel + 1, s =>
    if s = [] then []
    else (utf8.DecodeRuneInString s).1 :: runes fuel (s.drop (utf8.DecodeRuneInString s).2)

/-- The string consists only of whitespace characters. -/
def onlyWhitespace (s : GoString) : Bool := (runes s.length s).all unicode.IsSpace

/-- The entries written one per line, each followed by a line feed. -/
def serialize (entries : List GoString) : GoString :=
  (entries.map (fun e => e ++ [0x0A])).flatten

end Spec

namespace utf8

/-- A byte that cannot continue a multi-byte sequence. -/
def notCont (c : Nat) : Prop := c < 0x80 ∨ 0xBF < c

/-- The rune assembled from the bytes of a valid sequence of `sz` bytes. -/
def assemble (sz c a b d : Nat) : Nat :=
  if sz ≤ 2 then ((c &&& 0x1F) <<< 6) ||| (a &&& 0x3F)
  else if sz ≤ 3 then ((c &&& 0x0F) <<< 12) ||| ((a &&& 0x3F) <<< 6) ||| (b &&& 0x3F)
  else ((c &&& 0x07) <<< 18) ||| ((a &&& 0x3F) <<< 12) ||| ((b &&& 0x3F) <<< 6) ||| (d &&& 0x3F)

end utf8

/-- The snapshots handed to `saveIndexData` in a run, in order. -/
def savedSnapshots (trace : List Event) : List IndexData :=
  trace.filterMap fun e =>
    match e with
    | .callSaveIndexData data _ => some data
    | _ => none

/-- The trace of `dumpIndex` before the loop over the labels. -/
def traceBeforeLoop (w : World) (days : Int) (labels : List GoString) : List Event :=
  [Event.print (.dumping days), .lookPath] ++ [.print .fetchingLabels] ++ (getLabels w 0 days).2 ++
    [.print (.foundLabels labels.length)]

/-- The state of the loop of `dumpIndex` after the labels `done` of the list `labels`. -/
def stateAfter (w : World) (days : Int) (labels done : List GoString) : LoopState :=
  labelLoop w days labels.length
    { Values := GoMap.empty, trace := traceBeforeLoop w days labels, spawned := 1 } 0 done

/-- The snapshot `dumpIndex` builds from the labels `labels`. -/
def snapshotOf (w : World) (days : Int) (labels : List GoString) : IndexData :=
  { Labels := labels, Values := (stateAfter w days labels labels).Values, DumpedAt := w.now,
    Days := days }

/-! ## Example runs -/

namespace Example

/-- The error of a command that exits with status 1. -/
def exitStatus1 : GoError := .external (lit "exit status 1")

/-- An output of `logcli labels` with a carriage return, blanks, a logged URL,
an empty line, an upper-case `HTTP` and a last line without line feed. -/
def noisyText : GoString := lit "job\r\n  env \nhttp://loki:3100/x\n\n HTTP \nlast"

/-- A world in which every command prints `noisyText`. -/
def noisyWorld : World :=
  { LOKI_ADDR := some (lit "http://loki:3100")
    logcliInPath := true
    output := fun _ _ => .ok noisyText
    now := 0
    marshalIndent := fun _ => .ok []
    writeFile := fun _ _ => none }

/-- The labels `a` and `b`; the values of `a` are `x` and `y`, the values of `b`
cannot be fetched. -/
def partialWorld : World :=
  { LOKI_ADDR := some (lit "http://loki:3100")
    logcliInPath := true
    output := fun n cmd =>
      match n, cmd with
      | 0, .labels _ => .ok (lit "a\nb\n")
      | 1, .labelValues _ _ => .ok (lit "x\ny\n")
      | _, _ => .error exitStatus1
    now := 0
    marshalIndent := fun _ => .ok []
    writeFile := fun _ _ => none }

/-- What each label's fetch returns in `partialWorld`. -/
def partialOutcome (k : GoString) : Except GoError (List GoString) :=
  if k = lit "a" then .ok [lit "x", lit "y"]
  else .error (.valuesCommandFailed k exitStatus1)

/-- The label `a` is listed twice; its first fetch succeeds, its second fails. -/
def repeatedWorld : World :=
  { LOKI_ADDR := some (lit "http://loki:3100")
    logcliInPath := true
    output := fun n cmd =>
      match n, cmd with
      | 0, .labels _ => .ok (lit "a\na\n")
      | 1, .labelValues _ _ => .ok (lit "x\n")
      | _, _ => .error exitStatus1
    now := 0
    marshalIndent := fun _ => .ok []
    writeFile := fun _ _ => none }

/-- The command `logcli labels` fails. -/
def failingWorld : World :=
  { LOKI_ADDR := some (lit "http://loki:3100")
    logcliInPath := true
    output := fun _ _ => .error exitStatus1
    now := 0
    marshalIndent := fun _ => .ok []
    writeFile := fun _ _ => none }

/-- The variable `LOKI_ADDR` is not set. -/
def unsetWorld : World :=
  { LOKI_ADDR := none
    logcliInPath := true
    output := fun _ _ => .ok (lit "a\n")
    now := 0
    marshalIndent := fun _ => .ok []
    writeFile := fun _ _ => none }

/-- The output file of the example runs. -/
def file : GoString := lit "metadata.json"

end Example

/-! ## Lemmas on maps -/

namespace GoMap

theorem get_set_same (m : GoMap) (k : GoString) (v : List GoString) :
    (m.set k v).get k = some v := by
  induction m with
  | nil => simp [set, get]
  | cons p rest ih =>
    obtain ⟨k', v'⟩ := p
    by_cases h : k' = k
    · simp [set, get, h]
    · simp [set, get, h, ih]

theorem get_set_ne (m : GoMap) (k k' : GoString) (v : List GoString) (h : k' ≠ k) :
    (m.set k v).get k' = m.get k' := by
  induction m with
  | nil => simp [set, get, Ne.symm h]
  | cons p rest ih =>
    obtain ⟨k0, v0⟩ := p
    by_cases h0 : k0 = k
    · subst h0
      simp [set, get, Ne.symm h]
    · by_cases h1 : k0 = k'
      · subst h1
        simp [set, get, h0]
      · simp [set, get, h0, h1, ih]

theorem mem_keys_iff (m : GoMap) (k : GoString) : k ∈ m.keys ↔ m.get k ≠ none := by
  induction m with
  | nil => simp [keys, get]
  | cons p rest ih =>
    obtain ⟨k0, v0⟩ := p
    by_cases h0 : k0 = k
    · simp [keys, get, h0]
    · have ih' : k ∈ List.map Prod.fst rest ↔ get rest k ≠ none := ih
      simp only [keys, List.map_cons, List.mem_cons, get, h0, if_false]
      rw [ih']
      constructor
      · rintro (h | h)
        · exact absurd h.symm h0
        · exact h
      · intro h
        exact Or.inr h

end GoMap

/-! ## Lemmas on the loop of `dumpIndex` -/

theorem loopBody_spawned (w : World) (days : Int) (total : Nat) (st : LoopState) (i : Nat)
    (label : GoString) : (loopBody w days total st i label).spawned = st.spawned + 1 := by
  unfold loopBody
  cases h : (getLabelValues w st.spawned label days).1 <;> simp only [h]

theorem loopBody_values_error (w : World) (days : Int) (total : Nat) (st : LoopState) (i : Nat)
    (label : GoString) (err : GoError)
    (h : (getLabelValues w st.spawned label days).1 = .error err) :
    (loopBody w days total st i label).Values = st.Values := by
  unfold loopBody
  simp only [h]

theorem loopBody_values_ok (w : World) (days : Int) (total : Nat) (st : LoopState) (i : Nat)
    (label : GoString) (values : List GoString)
    (h : (getLabelValues w st.spawned label days).1 = .ok values) :
    (loopBody w days total st i label).Values = st.Values.set label values := by
  unfold loopBody
  simp only [h]

theorem getLabelValues_events (w : World) (n : Nat) (label : GoString) (days : Int) :
    (getLabelValues w n label days).2 =
      [Event.callGetLabelValues label days, .print (.executing (.labelValues label days)),
        .spawn (.labelValues label days)] := by
  unfold getLabelValues
  cases h : w.output n (Command.labelValues label days) with
  | error e => simp only [h]
  | ok out =>
    simp only [h]
    rcases hs : scanOutput out with ⟨a, _ | e⟩ <;> simp only [hs]

theorem getLabels_events (w : World) (n : Nat) (days : Int) :
    (getLabels w n days).2 =
      [Event.callGetLabels days, .print (.executing (.labels days)), .spawn (.labels days)] := by
  unfold getLabels
  cases h : w.output n (Command.labels days) with
  | error e => simp only [h]
  | ok out =>
    simp only [h]
    rcases hs : scanOutput out with ⟨a, _ | e⟩ <;> simp only [hs]

/-- The events one iteration appends to the trace. -/
theorem loopBody_trace (w : World) (days : Int) (total : Nat) (st : LoopState) (i : Nat)
    (label : GoString) :
    ∃ m, (loopBody w days total st i label).trace =
      st.trace ++ [Event.print (.fetchingValues (i + 1) total label),
        .callGetLabelValues label days, .print (.executing (.labelValues label days)),
        .spawn (.labelValues label days), .print m] ∧
      (∀ err, (getLabelValues w st.spawned label days).1 = .error err →
        m = .warning label err) := by
  unfold loopBody
  cases h : (getLabelValues w st.spawned label days).1 with
  | error e =>
    refine ⟨.warning label e, ?_, ?_⟩
    · simp [h, getLabelValues_events]
    · intro err herr
      cases herr
      rfl
  | ok v =>
    refine ⟨.foundValues v.length, ?_, ?_⟩
    · simp [h, getLabelValues_events]
    · intro err herr
      cases herr

theorem labelLoop_append (w : World) (days : Int) (total : Nat) (l₁ l₂ : List GoString) :
    ∀ (st : LoopState) (i : Nat),
      labelLoop w days total st i (l₁ ++ l₂) =
        labelLoop w days total (labelLoop w days total st i l₁) (i + l₁.length) l₂ := by
  induction l₁ with
  | nil => intro st i; simp [labelLoop]
  | cons x rest ih =>
    intro st i
    show labelLoop w days total (loopBody w days total st i x) (i + 1) (rest ++ l₂) =
      labelLoop w days total (labelLoop w days total (loopBody w days total st i x) (i + 1) rest)
        (i + (rest.length + 1)) l₂
    rw [ih]
    congr 1
    omega

/-- The trace only grows in the loop. -/
theorem labelLoop_trace_mono (w : World) (days : Int) (total : Nat) (labels : List GoString) :
    ∀ (st : LoopState) (i : Nat) (e : Event),
      e ∈ st.trace → e ∈ (labelLoop w days total st i labels).trace := by
  induction labels with
  | nil => intro st i e h; simpa [labelLoop] using h
  | cons x rest ih =>
    intro st i e h
    simp only [labelLoop]
    apply ih
    obtain ⟨m, hm, -⟩ := loopBody_trace w days total st i x
    rw [hm]
    exact List.mem_append_left _ h

/-- A key is absent after the loop exactly when it was absent before and every
call of `getLabelValues` for it in the loop returned an error. -/
theorem labelLoop_get_none (w : World) (days : Int) (total : Nat) (labels : List GoString) :
    ∀ (st : LoopState) (i : Nat) (k : GoString),
      (labelLoop w days total st i labels).Values.get k = none ↔
        (st.Values.get k = none ∧ ∀ j, labels[j]? = some k →
          ∃ err, (getLabelValues w (st.spawned + j) k days).1 = .error err) := by
  induction labels with
  | nil => intro st i k; simp [labelLoop]
  | cons x rest ih =>
    intro st i k
    simp only [labelLoop]
    rw [ih, loopBody_spawned]
    constructor
    · rintro ⟨h1, h2⟩
      cases hx : (getLabelValues w st.spawned x days).1 with
      | error e =>
        rw [loopBody_values_error w days total st i x e hx] at h1
        refine ⟨h1, ?_⟩
        intro j hj
        cases j with
        | zero =>
          simp only [List.getElem?_cons_zero, Option.some.injEq] at hj
          subst hj
          exact ⟨e, by simpa using hx⟩
        | succ j =>
          simp only [List.getElem?_cons_succ] at hj
          have := h2 j hj
          rwa [show st.spawned + 1 + j = st.spawned + (j + 1) by omega] at this
      | ok v =>
        rw [loopBody_values_ok w days total st i x v hx] at h1
        have hne : k ≠ x := by
          rintro rfl
          rw [GoMap.get_set_same] at h1
          cases h1
        rw [GoMap.get_set_ne _ _ _ _ hne] at h1
        refine ⟨h1, ?_⟩
        intro j hj
        cases j with
        | zero =>
          simp only [List.getElem?_cons_zero, Option.some.injEq] at hj
          exact absurd hj.symm hne
        | succ j =>
          simp only [List.getElem?_cons_succ] at hj
          have := h2 j hj
          rwa [show st.spawned + 1 + j = st.spawned + (j + 1) by omega] at this
    · rintro ⟨h1, h2⟩
      constructor
      · cases hx : (getLabelValues w st.spawned x days).1 with
        | error e =>
          rw [loopBody_values_error w days total st i x e hx]
          exact h1
        | ok v =>
          have hne : k ≠ x := by
            rintro rfl
            obtain ⟨err, herr⟩ := h2 0 (by simp)
            rw [Nat.add_zero, hx] at herr
            cases herr
          rw [loopBody_values_ok w days total st i x v hx, GoMap.get_set_ne _ _ _ _ hne]
          exact h1
      · intro j hj
        have := h2 (j + 1) (by simpa using hj)
        rwa [show st.spawned + (j + 1) = st.spawned + 1 + j by omega] at this

/-- A label that does not occur in the rest of the list keeps its entry. -/
theorem labelLoop_get_not_mem (w : World) (days : Int) (total : Nat) (labels : List GoString) :
    ∀ (st : LoopState) (i : Nat) (k : GoString), k ∉ labels →
      (labelLoop w days total st i labels).Values.get k = st.Values.get k := by
  induction labels with
  | nil => intro st i k _; simp [labelLoop]
  | cons x rest ih =>
    intro st i k hk
    simp only [List.mem_cons, not_or] at hk
    simp only [labelLoop]
    rw [ih _ _ _ hk.2]
    cases hx : (getLabelValues w st.spawned x days).1 with
    | error e => rw [loopBody_values_error w days total st i x e hx]
    | ok v => rw [loopBody_values_ok w days total st i x v hx, GoMap.get_set_ne _ _ _ _ hk.1]

/-- On a duplicate-free list, the entry of the label at index `j` is what its call returned. -/
theorem labelLoop_get_nodup (w : World) (days : Int) (total : Nat) (labels : List GoString) :
    ∀ (st : LoopState) (i : Nat), labels.Nodup → ∀ (j : Nat) (k : GoString) (v : List GoString),
      labels[j]? = some k → (getLabelValues w (st.spawned + j) k days).1 = .ok v →
        (labelLoop w days total st i labels).Values.get k = some v := by
  induction labels with
  | nil => intro st i _ j k v hj; simp at hj
  | cons x rest ih =>
    intro st i hnd j k v hj hv
    rw [List.nodup_cons] at hnd
    simp only [labelLoop]
    cases j with
    | zero =>
      simp only [List.getElem?_cons_zero, Option.some.injEq] at hj
      subst hj
      rw [labelLoop_get_not_mem _ _ _ _ _ _ _ hnd.1,
        loopBody_values_ok w days total st i x v (by simpa using hv), GoMap.get_set_same]
    | succ j =>
      simp only [List.getElem?_cons_succ] at hj
      apply ih _ _ hnd.2 j k v hj
      rw [loopBody_spawned]
      rwa [show st.spawned + 1 + j = st.spawned + (j + 1) by omega]

/-- Every key of the map after the loop was a key before or is one of the labels. -/
theorem labelLoop_keys (w : World) (days : Int) (total : Nat) (labels : List GoString)
    (st : LoopState) (i : Nat) (k : GoString)
    (h : k ∈ (labelLoop w days total st i labels).Values.keys) :
    k ∈ st.Values.keys ∨ k ∈ labels := by
  by_cases hk : k ∈ labels
  · exact Or.inr hk
  · left
    rw [GoMap.mem_keys_iff] at h ⊢
    rwa [labelLoop_get_not_mem _ _ _ _ _ _ _ hk] at h

/-- Every failed call in the loop leaves its warning in the trace. -/
theorem labelLoop_warning (w : World) (days : Int) (total : Nat) (labels : List GoString) :
    ∀ (st : LoopState) (i : Nat) (j : Nat) (k : GoString) (err : GoError),
      labels[j]? = some k → (getLabelValues w (st.spawned + j) k days).1 = .error err →
        Event.print (.warning k err) ∈ (labelLoop w days total st i labels).trace := by
  induction labels with
  | nil => intro st i j k err hj; simp at hj
  | cons x rest ih =>
    intro st i j k err hj herr
    simp only [labelLoop]
    cases j with
    | zero =>
      simp only [List.getElem?_cons_zero, Option.some.injEq] at hj
      subst hj
      apply labelLoop_trace_mono
      obtain ⟨m, hm, hw⟩ := loopBody_trace w days total st i x
      rw [hm, hw err (by simpa using herr)]
      simp
    | succ j =>
      simp only [List.getElem?_cons_succ] at hj
      apply ih _ _ j k err hj
      rw [loopBody_spawned]
      rwa [show st.spawned + 1 + j = st.spawned + (j + 1) by omega]

/-! ## Lemmas on `unicode/utf8` -/

namespace utf8

theorem first_spec (b : Nat) :
    first b = none ∨ ∃ sz lo hi, first b = some (sz, lo, hi) ∧ 2 ≤ sz ∧ sz ≤ 4 ∧
      0x80 ≤ lo ∧ hi ≤ 0xBF ∧ 0xC2 ≤ b := by
  by_cases h1 : b < 0xC2
  · left; simp [first, h1]
  · by_cases h2 : 0xF4 < b
    · left
      simp only [first]
      split_ifs <;> first | rfl | omega
    · right
      have hb : 0xC2 ≤ b := by omega
      simp only [first, h1, if_false]
      split_ifs <;> first
        | omega
        | (refine ⟨_, _, _, rfl, ?_, ?_, ?_, ?_, hb⟩ <;> decide)

theorem isSpace_runeError : unicode.IsSpace RuneError = false := by decide

theorem decode_nil : DecodeRuneInString [] = (RuneError, 0) := rfl

theorem decode_ascii (c : Nat) (rest : GoString) (h : c < 0x80) :
    DecodeRuneInString (c :: rest) = (c, 1) := by
  simp [DecodeRuneInString, RuneSelf, h]

theorem assemble_congr (sz c a b d b' d' : Nat) (hb : 3 ≤ sz → b' = b) (hd : 4 ≤ sz → d' = d) :
    assemble sz c a b' d' = assemble sz c a b d := by
  unfold assemble
  split_ifs with h2 h3
  · rfl
  · rw [hb (by omega)]
  · rw [hb (by omega), hd (by omega)]

/-- The decoding of a non-empty string, in terms of its length and its first four bytes. -/
theorem decode_cons (c : Nat) (rest : GoString) :
    DecodeRuneInString (c :: rest) =
      if c < 0x80 then (c, 1)
      else
        match first c with
        | none => (RuneError, 1)
        | some (sz, lo, hi) =>
          if rest.length + 1 < sz then (RuneError, 1)
          else if rest.getD 0 0 < lo ∨ hi < rest.getD 0 0 then (RuneError, 1)
          else if sz ≤ 2 then (((c &&& 0x1F) <<< 6) ||| (rest.getD 0 0 &&& 0x3F), 2)
          else if rest.getD 1 0 < 0x80 ∨ 0xBF < rest.getD 1 0 then (RuneError, 1)
          else if sz ≤ 3 then
            (((c &&& 0x0F) <<< 12) ||| ((rest.getD 0 0 &&& 0x3F) <<< 6) |||
              (rest.getD 1 0 &&& 0x3F), 3)
          else if rest.getD 2 0 < 0x80 ∨ 0xBF < rest.getD 2 0 then (RuneError, 1)
          else
            (((c &&& 0x07) <<< 18) ||| ((rest.getD 0 0 &&& 0x3F) <<< 12) |||
              ((rest.getD 1 0 &&& 0x3F) <<< 6) ||| (rest.getD 2 0 &&& 0x3F), 4) := by
  simp only [DecodeRuneInString, RuneSelf, locb, hicb, List.length_cons, List.getD_cons_succ]

/-- The decoding at a leading byte: one test for the whole sequence. -/
theorem decode_lead (c : Nat) (rest : GoString) (sz lo hi : Nat)
    (hf : first c = some (sz, lo, hi)) (h2 : 2 ≤ sz) (h4 : sz ≤ 4) (hc : 0xC2 ≤ c) :
    DecodeRuneInString (c :: rest) =
      if sz ≤ rest.length + 1 ∧ lo ≤ rest.getD 0 0 ∧ rest.getD 0 0 ≤ hi ∧
          (3 ≤ sz → 0x80 ≤ rest.getD 1 0 ∧ rest.getD 1 0 ≤ 0xBF) ∧
          (4 ≤ sz → 0x80 ≤ rest.getD 2 0 ∧ rest.getD 2 0 ≤ 0xBF) then
        (assemble sz c (rest.getD 0 0) (rest.getD 1 0) (rest.getD 2 0), sz)
      else (RuneError, 1) := by
  rw [decode_cons, hf]
  have hc' : ¬ c < 0x80 := by omega
  simp only [hc', if_false]
  generalize rest.getD 0 0 = a
  generalize rest.getD 1 0 = b
  generalize rest.getD 2 0 = d
  generalize rest.length = n
  unfold assemble
  by_cases hn : n + 1 < sz
  · rw [if_pos hn, if_neg (by omega)]
  · rw [if_neg hn]
    by_cases ha : a < lo ∨ hi < a
    · rw [if_pos ha, if_neg (by omega)]
    · rw [if_neg ha]
      by_cases hs2 : sz ≤ 2
      · rw [if_pos hs2, if_pos (by omega), if_pos hs2]
        congr 1; omega
      · rw [if_neg hs2, if_neg hs2]
        by_cases hb : b < 0x80 ∨ 0xBF < b
        · rw [if_pos hb, if_neg (by omega)]
        · rw [if_neg hb]
          by_cases hs3 : sz ≤ 3
          · rw [if_pos hs3, if_pos (by omega), if_pos hs3]
            congr 1; omega
          · rw [if_neg hs3, if_neg hs3]
            by_cases hd : d < 0x80 ∨ 0xBF < d
            · rw [if_pos hd, if_neg (by omega)]
            · rw [if_neg hd, if_pos (by omega)]
              congr 1; omega

theorem getD_take (l : GoString) (m k : Nat) :
    (l.take m).getD k 0 = if k < m then l.getD k 0 else 0 := by
  simp only [List.getD_eq_getElem?_getD, List.getElem?_take]
  split_ifs <;> rfl

theorem getD_append_cons (l u : GoString) (x k : Nat) :
    (l ++ x :: u).getD k 0 =
      if k < l.length then l.getD k 0 else if k = l.length then x
      else u.getD (k - l.length - 1) 0 := by
  split_ifs with h1 h2
  · rw [List.getD_append _ _ _ _ h1]
  · subst h2
    rw [List.getD_append_right _ _ _ _ (le_refl _)]
    simp
  · rw [List.getD_append_right _ _ _ _ (by omega)]
    obtain ⟨j, hj⟩ : ∃ j, k - l.length = j + 1 := ⟨k - l.length - 1, by omega⟩
    rw [hj, List.getD_cons_succ]
    congr 1

/-- Decoding reads no more than the bytes of the rune it returns. -/
theorem decode_take_of_width_le (t : GoString) (n : Nat)
    (h : (DecodeRuneInString t).2 ≤ n) (hn : 1 ≤ n) :
    DecodeRuneInString (t.take n) = DecodeRuneInString t := by
  cases t with
  | nil => simp
  | cons c rest =>
    obtain ⟨m, rfl⟩ : ∃ m, n = m + 1 := ⟨n - 1, by omega⟩
    rw [List.take_succ_cons]
    rcases first_spec c with hf | ⟨sz, lo, hi, hf, h1, h2, h3, h4, h5⟩
    · rw [decode_cons, decode_cons, hf]
    · rw [decode_lead c rest sz lo hi hf h1 h2 h5] at h ⊢
      rw [decode_lead c _ sz lo hi hf h1 h2 h5]
      simp only [List.length_take, getD_take]
      by_cases hP : sz ≤ rest.length + 1 ∧ lo ≤ rest.getD 0 0 ∧ rest.getD 0 0 ≤ hi ∧
          (3 ≤ sz → 0x80 ≤ rest.getD 1 0 ∧ rest.getD 1 0 ≤ 0xBF) ∧
          (4 ≤ sz → 0x80 ≤ rest.getD 2 0 ∧ rest.getD 2 0 ≤ 0xBF)
      · rw [if_pos hP] at h ⊢
        simp only at h
        have h0 : 0 < m := by omega
        rw [if_pos h0]
        rw [if_pos]
        · congr 1
          apply assemble_congr
          · intro h3'; rw [if_pos (by omega)]
          · intro h4'; rw [if_pos (by omega)]
        · refine ⟨by omega, hP.2.1, hP.2.2.1, ?_, ?_⟩
          · intro h3'; rw [if_pos (by omega)]; exact hP.2.2.2.1 h3'
          · intro h4'; rw [if_pos (by omega)]; exact hP.2.2.2.2 h4'
      · rw [if_neg hP, if_neg]
        intro hP'
        apply hP
        obtain ⟨q1, q2, q3, q4, q5⟩ := hP'
        have h0 : 0 < m := by
          by_contra hm
          rw [if_neg hm] at q2
          omega
        rw [if_pos h0] at q2 q3
        refine ⟨by omega, q2, q3, ?_, ?_⟩
        · intro h3'
          have := q4 h3'
          split_ifs at this with hh
          · exact this
          · omega
        · intro h4'
          have := q5 h4'
          split_ifs at this with hh
          · exact this
          · omega

/-- Decoding a truncated string gives the same rune or the error rune. -/
theorem decode_take_or (t : GoString) (n : Nat) (hn : 1 ≤ n) :
    DecodeRuneInString (t.take n) = DecodeRuneInString t ∨
      DecodeRuneInString (t.take n) = (RuneError, 1) := by
  cases t with
  | nil => simp
  | cons c rest =>
    obtain ⟨m, rfl⟩ : ∃ m, n = m + 1 := ⟨n - 1, by omega⟩
    rw [List.take_succ_cons]
    rcases first_spec c with hf | ⟨sz, lo, hi, hf, h1, h2, h3, h4, h5⟩
    · left
      rw [decode_cons, decode_cons, hf]
    · by_cases hw : (DecodeRuneInString (c :: rest)).2 ≤ m + 1
      · left
        have := decode_take_of_width_le (c :: rest) (m + 1) hw (by omega)
        rwa [List.take_succ_cons] at this
      · right
        rw [decode_lead c rest sz lo hi hf h1 h2 h5] at hw
        rw [decode_lead c _ sz lo hi hf h1 h2 h5]
        split_ifs at hw with hP
        · simp only at hw
          rw [if_neg]
          simp only [List.length_take]
          omega
        · simp only at hw
          omega

/-- Decoding does not read past a byte that cannot continue a sequence. -/
theorem decode_append (t u : GoString) (x : Nat) (ht : t ≠ []) (hx : notCont x) :
    DecodeRuneInString (t ++ x :: u) = DecodeRuneInString t := by
  obtain ⟨c, rest, rfl⟩ := List.exists_cons_of_ne_nil ht
  rw [List.cons_append]
  rcases first_spec c with hf | ⟨sz, lo, hi, hf, h1, h2, h3, h4, h5⟩
  · rw [decode_cons, decode_cons, hf]
  · rw [decode_lead c _ sz lo hi hf h1 h2 h5, decode_lead c _ sz lo hi hf h1 h2 h5]
    simp only [List.length_append, List.length_cons, getD_append_cons]
    unfold notCont at hx
    by_cases hP : sz ≤ rest.length + 1 ∧ lo ≤ rest.getD 0 0 ∧ rest.getD 0 0 ≤ hi ∧
        (3 ≤ sz → 0x80 ≤ rest.getD 1 0 ∧ rest.getD 1 0 ≤ 0xBF) ∧
        (4 ≤ sz → 0x80 ≤ rest.getD 2 0 ∧ rest.getD 2 0 ≤ 0xBF)
    · rw [if_pos hP]
      have h0 : 0 < rest.length := by omega
      rw [if_pos h0]
      rw [if_pos]
      · congr 1
        apply assemble_congr
        · intro h3'; rw [if_pos (by omega)]
        · intro h4'; rw [if_pos (by omega)]
      · refine ⟨by omega, hP.2.1, hP.2.2.1, ?_, ?_⟩
        · intro h3'; rw [if_pos (by omega)]; exact hP.2.2.2.1 h3'
        · intro h4'; rw [if_pos (by omega)]; exact hP.2.2.2.2 h4'
    · rw [if_neg hP, if_neg]
      intro hP'
      apply hP
      obtain ⟨q1, q2, q3, q4, q5⟩ := hP'
      have h0 : 0 < rest.length := by
        by_contra hm
        rw [if_neg hm, if_pos (by omega)] at q2 q3
        omega
      rw [if_pos h0] at q2 q3
      have h1' : 3 ≤ sz → 1 < rest.length := by
        intro h3'
        have := q4 h3'
        by_contra hm
        rw [if_neg hm, if_pos (by omega)] at this
        omega
      have h2' : 4 ≤ sz → 2 < rest.length := by
        intro h4'
        have := q5 h4'
        by_contra hm
        rw [if_neg hm, if_pos (by have := h1' (by omega); omega)] at this
        omega
      refine ⟨?_, q2, q3, ?_, ?_⟩
      · have := h1'; have := h2'; omega
      · intro h3'
        have := q4 h3'
        rwa [if_pos (h1' h3')] at this
      · intro h4'
        have := q5 h4'
        rwa [if_pos (h2' h4')] at this

/-- A whitespace rune starts at an ASCII byte or at a leading byte. -/
theorem decode_space_head (s : GoString) (h : unicode.IsSpace (DecodeRuneInString s).1 = true) :
    ∃ c rest, s = c :: rest ∧ notCont c := by
  cases s with
  | nil => rw [decode_nil, isSpace_runeError] at h; cases h
  | cons c rest =>
    refine ⟨c, rest, rfl, ?_⟩
    unfold notCont
    rcases first_spec c with hf | ⟨sz, lo, hi, hf, h1, h2, h3, h4, h5⟩
    · by_cases hc : c < 0x80
      · exact Or.inl hc
      · rw [decode_cons, hf, if_neg hc, isSpace_runeError] at h
        cases h
    · right; omega

theorem decode_width (s : GoString) (h : s ≠ []) :
    1 ≤ (DecodeRuneInString s).2 ∧ (DecodeRuneInString s).2 ≤ s.length := by
  obtain ⟨c, rest, rfl⟩ := List.exists_cons_of_ne_nil h
  rcases first_spec c with hf | ⟨sz, lo, hi, hf, h1, h2, h3, h4, h5⟩
  · rw [decode_cons, hf]
    split_ifs <;> simp
  · rw [decode_lead c rest sz lo hi hf h1 h2 h5]
    simp only [List.length_cons]
    split_ifs with hP
    · simp only
      omega
    · simp only
      omega

theorem lastStart_le (s : GoString) (lim : Nat) (v : Nat) : lastStart s lim v ≤ v := by
  induction v with
  | zero => simp [lastStart]
  | succ v ih =>
    unfold lastStart
    split_ifs <;> omega

theorem decodeLast_nil : DecodeLastRuneInString [] = (RuneError, 0) := rfl

/-- The three outcomes of `DecodeLastRuneInString` on a non-empty string. -/
theorem decodeLast_cases (s : GoString) (h : s ≠ []) :
    (s.getD (s.length - 1) 0 < 0x80 ∧
      DecodeLastRuneInString s = (s.getD (s.length - 1) 0, 1)) ∨
    (0x80 ≤ s.getD (s.length - 1) 0 ∧ DecodeLastRuneInString s = (RuneError, 1)) ∨
    (0x80 ≤ s.getD (s.length - 1) 0 ∧ ∃ start, start < s.length ∧
      start + (DecodeRuneInString (s.drop start)).2 = s.length ∧
      DecodeLastRuneInString s = DecodeRuneInString (s.drop start)) := by
  have hlen : 0 < s.length := List.length_pos.mpr h
  unfold DecodeLastRuneInString
  simp only [RuneSelf, UTFMax]
  rw [if_neg (by omega)]
  by_cases hc : s.getD (s.length - 1) 0 < 0x80
  · left
    exact ⟨hc, by rw [if_pos hc]⟩
  · right
    rw [if_neg hc]
    have hs := lastStart_le s (s.length - 4) (s.length - 1)
    split_ifs with hne
    · left; exact ⟨by omega, rfl⟩
    · right
      refine ⟨by omega, lastStart s (s.length - 4) (s.length - 1), by omega, ?_, rfl⟩
      simpa using hne

theorem drop_length_sub_one (s : GoString) (h : s ≠ []) :
    s.drop (s.length - 1) = [s.getD (s.length - 1) 0] := by
  induction s with
  | nil => exact absurd rfl h
  | cons c rest ih =>
    cases rest with
    | nil => simp
    | cons c' rest' =>
      have := ih (by simp)
      simp only [List.length_cons, Nat.add_sub_cancel] at this ⊢
      rw [List.drop_succ_cons, List.getD_cons_succ]
      exact this

theorem drop_eq_getD_cons (s : GoString) (i : Nat) (h : i < s.length) :
    s.drop i = s.getD i 0 :: s.drop (i + 1) := by
  induction s generalizing i with
  | nil => simp at h
  | cons c rest ih =>
    cases i with
    | zero => simp
    | succ i =>
      simp only [List.length_cons, Nat.add_lt_add_iff_right] at h
      simp only [List.drop_succ_cons, List.getD_cons_succ]
      exact ih i h

theorem decodeLast_width (s : GoString) (h : s ≠ []) :
    1 ≤ (DecodeLastRuneInString s).2 ∧ (DecodeLastRuneInString s).2 ≤ s.length := by
  have hlen : 0 < s.length := List.length_pos.mpr h
  rcases decodeLast_cases s h with ⟨-, h1⟩ | ⟨-, h1⟩ | ⟨-, start, h1, h2, h3⟩
  · rw [h1]; exact ⟨le_refl _, hlen⟩
  · rw [h1]; exact ⟨le_refl _, hlen⟩
  · rw [h3]; omega

/-- Decoding forwards from where the last rune starts gives a rune of the same width. -/
theorem decode_drop_decodeLast (s : GoString) (h : s ≠ []) :
    (DecodeRuneInString (s.drop (s.length - (DecodeLastRuneInString s).2))).2 =
      (DecodeLastRuneInString s).2 := by
  rcases decodeLast_cases s h with ⟨hc, h1⟩ | ⟨hc, h1⟩ | ⟨-, start, h1, h2, h3⟩
  · rw [h1, drop_length_sub_one s h, decode_ascii _ _ hc]
  · rw [h1, drop_length_sub_one s h]
    have := decode_width [s.getD (s.length - 1) 0] (by simp)
    simp only [List.length_singleton] at this ⊢
    omega
  · rw [h3]
    have hst : s.length - (DecodeRuneInString (s.drop start)).2 = start := by omega
    rw [hst]

/-- A whitespace rune found from the back is the rune decoded forwards at its
first byte, and that byte does not continue a sequence. -/
theorem decodeLast_space (s : GoString)
    (h : unicode.IsSpace (DecodeLastRuneInString s).1 = true) :
    DecodeRuneInString (s.drop (s.length - (DecodeLastRuneInString s).2)) =
        DecodeLastRuneInString s ∧
      notCont (s.getD (s.length - (DecodeLastRuneInString s).2) 0) := by
  by_cases hs : s = []
  · subst hs
    rw [decodeLast_nil, isSpace_runeError] at h
    cases h
  have hlen : 0 < s.length := List.length_pos.mpr hs
  rcases decodeLast_cases s hs with ⟨hc, h1⟩ | ⟨hc, h1⟩ | ⟨-, start, h1, h2, h3⟩
  · rw [h1]
    refine ⟨?_, Or.inl hc⟩
    rw [drop_length_sub_one s hs, decode_ascii _ _ hc]
  · rw [h1, isSpace_runeError] at h
    cases h
  · rw [h3] at h ⊢
    have hst : s.length - (DecodeRuneInString (s.drop start)).2 = start := by omega
    rw [hst]
    refine ⟨rfl, ?_⟩
    obtain ⟨c, rest, hcr, hnc⟩ := decode_space_head _ h
    rw [drop_eq_getD_cons s start h1] at hcr
    injection hcr with hc' _
    rw [hc']
    exact hnc

end utf8

namespace Spec

theorem dropLeadingSpace_nil (fuel : Nat) : dropLeadingSpace fuel [] = [] := by
  cases fuel <;> simp [dropLeadingSpace]

theorem dropTrailingSpace_nil (fuel : Nat) : dropTrailingSpace fuel [] = [] := by
  cases fuel <;> simp [dropTrailingSpace]

theorem dropLeadingSpace_fuel (f₁ : Nat) : ∀ (f₂ : Nat) (s : GoString),
    s.length ≤ f₁ → s.length ≤ f₂ → dropLeadingSpace f₁ s = dropLeadingSpace f₂ s := by
  induction f₁ with
  | zero =>
    intro f₂ s h1 _
    have : s = [] := List.length_eq_zero.mp (by omega)
    subst this
    rw [dropLeadingSpace_nil, dropLeadingSpace_nil]
  | succ f₁ ih =>
    intro f₂ s h1 h2
    by_cases hs : s = []
    · subst hs
      rw [dropLeadingSpace_nil, dropLeadingSpace_nil]
    · have hlen : 0 < s.length := List.length_pos.mpr hs
      obtain ⟨g, rfl⟩ : ∃ g, f₂ = g + 1 := ⟨f₂ - 1, by omega⟩
      have hw := utf8.decode_width s hs
      simp only [dropLeadingSpace, hs, if_false]
      split_ifs
      · apply ih <;> simp only [List.length_drop] <;> omega
      · rfl

theorem dropTrailingSpace_fuel (f₁ : Nat) : ∀ (f₂ : Nat) (s : GoString),
    s.length ≤ f₁ → s.length ≤ f₂ → dropTrailingSpace f₁ s = dropTrailingSpace f₂ s := by
  induction f₁ with
  | zero =>
    intro f₂ s h1 _
    have : s = [] := List.length_eq_zero.mp (by omega)
    subst this
    rw [dropTrailingSpace_nil, dropTrailingSpace_nil]
  | succ f₁ ih =>
    intro f₂ s h1 h2
    by_cases hs : s = []
    · subst hs
      rw [dropTrailingSpace_nil, dropTrailingSpace_nil]
    · have hlen : 0 < s.length := List.length_pos.mpr hs
      obtain ⟨g, rfl⟩ : ∃ g, f₂ = g + 1 := ⟨f₂ - 1, by omega⟩
      have hw := utf8.decodeLast_width s hs
      simp only [dropTrailingSpace, hs, if_false]
      split_ifs
      · apply ih <;> simp only [List.length_take] <;> omega
      · rfl

theorem trimLeft_nil : trimLeft [] = [] := rfl

theorem trimRight_nil : trimRight [] = [] := rfl

/-- The defining equation of `trimLeft`. -/
theorem trimLeft_eq (s : GoString) (hs : s ≠ []) :
    trimLeft s =
      if unicode.IsSpace (utf8.DecodeRuneInString s).1 then
        trimLeft (s.drop (utf8.DecodeRuneInString s).2)
      else s := by
  have hlen : 0 < s.length := List.length_pos.mpr hs
  obtain ⟨g, hg⟩ : ∃ g, s.length = g + 1 := ⟨s.length - 1, by omega⟩
  have hw := utf8.decode_width s hs
  have h0 : trimLeft s = dropLeadingSpace (g + 1) s := by rw [trimLeft, hg]
  rw [h0]
  simp only [dropLeadingSpace, hs, if_false]
  split_ifs
  · rw [trimLeft]
    apply dropLeadingSpace_fuel
    · simp only [List.length_drop]; omega
    · exact le_refl _
  · rfl

/-- The defining equation of `trimRight`. -/
theorem trimRight_eq (s : GoString) (hs : s ≠ []) :
    trimRight s =
      if unicode.IsSpace (utf8.DecodeLastRuneInString s).1 then
        trimRight (s.take (s.length - (utf8.DecodeLastRuneInString s).2))
      else s := by
  have hlen : 0 < s.length := List.length_pos.mpr hs
  obtain ⟨g, hg⟩ : ∃ g, s.length = g + 1 := ⟨s.length - 1, by omega⟩
  have hw := utf8.decodeLast_width s hs
  have h0 : trimRight s = dropTrailingSpace (g + 1) s := by rw [trimRight, hg]
  rw [h0]
  simp only [dropTrailingSpace, hs, if_false]
  split_ifs
  · rw [trimRight]
    apply dropTrailingSpace_fuel
    · simp only [List.length_take]; omega
    · exact le_refl _
  · rfl

end Spec
namespace strings
open utf8 unicode Spec

/-- What the loop of `indexFunc` finds is where the leading whitespace ends. -/
theorem indexFuncLoop_spec (fuel : Nat) : ∀ (s : GoString) (i : Nat), s.length ≤ fuel →
    match indexFuncLoop IsSpace false fuel s i with
    | none => trimLeft s = []
    | some j => i ≤ j ∧ trimLeft s = s.drop (j - i) := by
  induction fuel with
  | zero =>
    intro s i h
    have : s = [] := List.length_eq_zero.mp (by omega)
    subst this
    simp [indexFuncLoop, trimLeft_nil]
  | succ fuel ih =>
    intro s i h
    by_cases hs : s = []
    · subst hs
      simp [indexFuncLoop, trimLeft_nil]
    · have hw := decode_width s hs
      simp only [indexFuncLoop, hs, if_false]
      rw [trimLeft_eq s hs]
      by_cases hsp : IsSpace (DecodeRuneInString s).1 = false
      · rw [if_pos hsp]
        simp [hsp]
      · rw [if_neg hsp]
        have hsp' : IsSpace (DecodeRuneInString s).1 = true := by simpa using hsp
        rw [if_pos hsp']
        have := ih (s.drop (DecodeRuneInString s).2) (i + (DecodeRuneInString s).2)
          (by simp only [List.length_drop]; omega)
        revert this
        cases indexFuncLoop IsSpace false fuel (s.drop (DecodeRuneInString s).2)
          (i + (DecodeRuneInString s).2) with
        | none => exact id
        | some j =>
          simp only
          rintro ⟨h1, h2⟩
          refine ⟨by omega, ?_⟩
          rw [h2, List.drop_drop]
          congr 1
          omega

theorem TrimLeftFunc_eq (s : GoString) : TrimLeftFunc s IsSpace = trimLeft s := by
  have := indexFuncLoop_spec s.length s 0 (le_refl _)
  unfold TrimLeftFunc indexFunc
  revert this
  cases indexFuncLoop IsSpace false s.length s 0 with
  | none => intro h; exact h.symm
  | some j => intro h; simpa using h.2.symm

theorem drop_eq_drop_take_append (s : GoString) (j i : Nat) (h : j ≤ i) :
    s.drop j = (s.take i).drop j ++ s.drop i := by
  conv_lhs => rw [← List.take_append_drop i s]
  rw [List.drop_append_eq_append_drop]
  congr 1
  rw [List.length_take]
  have : j - min i s.length = 0 ∨ s.length ≤ i := by omega
  rcases this with h0 | h0
  · rw [h0]; rfl
  · rw [List.drop_eq_nil_of_le h0, List.drop_nil]

/-- The width decoded forwards at the start of the last rune of `s[:i]` is the width
of that rune, when `s[i]` cannot continue a sequence. -/
theorem decode_width_at_last (s : GoString) (i : Nat) (hi : i ≤ s.length) (h0 : 0 < i)
    (hB : i = s.length ∨ notCont (s.getD i 0)) :
    (DecodeRuneInString (s.drop (i - (DecodeLastRuneInString (s.take i)).2))).2 =
      (DecodeLastRuneInString (s.take i)).2 := by
  have hne : s.take i ≠ [] := by
    intro h
    have := congrArg List.length h
    simp only [List.length_take, List.length_nil] at this
    omega
  have hlen : (s.take i).length = i := by simp only [List.length_take]; omega
  have hw := decodeLast_width (s.take i) hne
  have h1 := decode_drop_decodeLast (s.take i) hne
  rw [hlen] at h1 hw
  set w := (DecodeLastRuneInString (s.take i)).2 with hwdef
  rw [drop_eq_drop_take_append s (i - w) i (by omega)]
  have hne' : (s.take i).drop (i - w) ≠ [] := by
    intro h
    have := congrArg List.length h
    simp only [List.length_drop, List.length_take, List.length_nil] at this
    omega
  rcases hB with hB | hB
  · rw [hB, List.drop_length, List.append_nil]
    rw [hB] at h1
    exact h1
  · by_cases hil : i = s.length
    · rw [hil, List.drop_length, List.append_nil]
      rw [hil] at h1
      exact h1
    · rw [drop_eq_getD_cons s i (by omega), decode_append _ _ _ hne' hB]
      exact h1

/-- What the loop of `lastIndexFunc` finds is where the trailing whitespace starts. -/
theorem lastIndexFuncLoop_spec (s : GoString) (fuel : Nat) : ∀ (i : Nat), i ≤ s.length →
    i ≤ fuel → (i = s.length ∨ notCont (s.getD i 0)) →
    match lastIndexFuncLoop IsSpace false s fuel i with
    | none => trimRight (s.take i) = []
    | some j => j < i ∧
        trimRight (s.take i) = s.take (j + (DecodeRuneInString (s.drop j)).2) := by
  induction fuel with
  | zero =>
    intro i _ h _
    have : i = 0 := by omega
    subst this
    simp [lastIndexFuncLoop, trimRight_nil]
  | succ fuel ih =>
    intro i hi hf hB
    by_cases h0 : i = 0
    · subst h0
      simp [lastIndexFuncLoop, trimRight_nil]
    · have hne : s.take i ≠ [] := by
        intro h
        have := congrArg List.length h
        simp only [List.length_take, List.length_nil] at this
        omega
      have hlen : (s.take i).length = i := by simp only [List.length_take]; omega
      have hw := decodeLast_width (s.take i) hne
      rw [hlen] at hw
      simp only [lastIndexFuncLoop, h0, if_false]
      rw [trimRight_eq _ hne, hlen]
      by_cases hsp : IsSpace (DecodeLastRuneInString (s.take i)).1 = false
      · rw [if_pos hsp]
        simp only [hsp, Bool.false_eq_true, if_false]
        refine ⟨by omega, ?_⟩
        rw [decode_width_at_last s i hi (by omega) hB]
        congr 1
        omega
      · rw [if_neg hsp]
        have hsp' : IsSpace (DecodeLastRuneInString (s.take i)).1 = true := by simpa using hsp
        rw [if_pos hsp']
        have hB' := (decodeLast_space _ hsp').2
        rw [hlen, getD_take, if_pos (by omega)] at hB'
        have := ih (i - (DecodeLastRuneInString (s.take i)).2) (by omega) (by omega)
          (Or.inr hB')
        rw [List.take_take, min_eq_left (by omega)]
        revert this
        cases lastIndexFuncLoop IsSpace false s fuel
          (i - (DecodeLastRuneInString (s.take i)).2) with
        | none => exact id
        | some j =>
          simp only
          rintro ⟨h1, h2⟩
          exact ⟨by omega, h2⟩

theorem TrimRightFunc_eq (s : GoString) : TrimRightFunc s IsSpace = trimRight s := by
  have := lastIndexFuncLoop_spec s s.length s.length (le_refl _) (le_refl _) (Or.inl rfl)
  unfold TrimRightFunc lastIndexFunc
  revert this
  cases lastIndexFuncLoop IsSpace false s s.length s.length with
  | none =>
    intro h
    simp only [List.take_length] at h
    simp [h]
  | some j =>
    simp only [List.take_length]
    rintro ⟨h1, h2⟩
    rw [h2]
    split_ifs with hc
    · rfl
    · have hc' : s.getD j 0 < 0x80 := by
        simp only [RuneSelf, ge_iff_le, not_le] at hc
        exact hc
      rw [drop_eq_getD_cons s j h1, decode_ascii _ _ hc']

theorem TrimFunc_eq (s : GoString) : TrimFunc s IsSpace = trim s := by
  rw [TrimFunc, TrimLeftFunc_eq, TrimRightFunc_eq, trim]

theorem isSpace_ascii (c : Nat) (h : c < 0x80) : IsSpace c = asciiSpace c := by
  unfold IsSpace asciiSpace
  rw [if_pos (by omega), Bool.eq_iff_iff]
  simp only [decide_eq_true_eq]
  omega

theorem trimLeft_cons_ascii (c : Nat) (rest : GoString) (h : c < 0x80) :
    trimLeft (c :: rest) = if asciiSpace c then trimLeft rest else c :: rest := by
  rw [trimLeft_eq _ (by simp), decode_ascii _ _ h]
  simp only [isSpace_ascii c h, List.drop_succ_cons, List.drop_zero]

theorem decodeLast_append_ascii (t : GoString) (c : Nat) (h : c < 0x80) :
    DecodeLastRuneInString (t ++ [c]) = (c, 1) := by
  unfold DecodeLastRuneInString
  have hg : (t ++ [c]).getD ((t ++ [c]).length - 1) 0 = c := by
    have := getD_append_cons t [] c t.length
    simp only [lt_irrefl, if_false, if_true] at this
    simp [this]
  simp only [hg, RuneSelf, h, if_true]
  simp

theorem trimRight_append_ascii (t : GoString) (c : Nat) (h : c < 0x80) :
    trimRight (t ++ [c]) = if asciiSpace c then trimRight t else t ++ [c] := by
  rw [trimRight_eq _ (by simp), decodeLast_append_ascii _ _ h]
  simp only [isSpace_ascii c h, List.length_append, List.length_singleton, Nat.add_sub_cancel,
    List.take_left']

/-- The first loop of `TrimSpace` skips leading whitespace only. -/
theorem trimSpaceStart_spec (t : GoString) : ∀ (k : Nat),
    k ≤ (trimSpaceStart t k).1 ∧
      trimLeft t = trimLeft (t.drop ((trimSpaceStart t k).1 - k)) ∧
      ((trimSpaceStart t k).2 = false →
        trimLeft (t.drop ((trimSpaceStart t k).1 - k)) = t.drop ((trimSpaceStart t k).1 - k)) := by
  induction t with
  | nil => intro k; simp [trimSpaceStart, trimLeft_nil]
  | cons c rest ih =>
    intro k
    unfold trimSpaceStart
    by_cases hc : c ≥ RuneSelf
    · simp [hc]
    · rw [if_neg hc]
      have hc' : c < 0x80 := by simpa [RuneSelf] using hc
      by_cases ha : asciiSpace c = false
      · rw [if_pos ha]
        simp only [le_refl, Nat.sub_self, List.drop_zero, true_and, forall_true_left]
        rw [trimLeft_cons_ascii c rest hc', ha]
        simp
      · rw [if_neg ha]
        have ha' : asciiSpace c = true := by simpa using ha
        obtain ⟨h1, h2, h3⟩ := ih (k + 1)
        have hsub : (trimSpaceStart rest (k + 1)).1 - k =
            ((trimSpaceStart rest (k + 1)).1 - (k + 1)) + 1 := by omega
        refine ⟨by omega, ?_, ?_⟩
        · rw [hsub, List.drop_succ_cons, trimLeft_cons_ascii c rest hc', ha', if_pos rfl]
          exact h2
        · intro hb
          rw [hsub, List.drop_succ_cons]
          exact h3 hb

theorem take_succ_drop (s : GoString) (start stop : Nat) (h1 : start ≤ stop)
    (h2 : stop < s.length) :
    (s.take (stop + 1)).drop start = (s.take stop).drop start ++ [s.getD stop 0] := by
  rw [List.take_succ, List.drop_append_of_le_length (by simp only [List.length_take]; omega)]
  congr 1
  rw [List.getD_eq_getElem?_getD, List.getElem?_eq_getElem h2]
  rfl

/-- The second loop of `TrimSpace` skips trailing whitespace only. -/
theorem trimSpaceStop_spec (s : GoString) (start : Nat) : ∀ (stop : Nat), stop ≤ s.length →
    trimRight ((s.take stop).drop start) =
        trimRight ((s.take (trimSpaceStop s start stop).1).drop start) ∧
      ((trimSpaceStop s start stop).2 = false →
        trimRight ((s.take (trimSpaceStop s start stop).1).drop start) =
          (s.take (trimSpaceStop s start stop).1).drop start) := by
  intro stop
  induction stop with
  | zero => intro _; simp [trimSpaceStop, trimRight_nil]
  | succ stop ih =>
    intro hstop
    unfold trimSpaceStop
    by_cases hlt : start < stop + 1
    · rw [if_pos hlt]
      simp only
      by_cases hc : s.getD stop 0 ≥ RuneSelf
      · rw [if_pos hc]
        simp
      · rw [if_neg hc]
        have hc' : s.getD stop 0 < 0x80 := by simpa [RuneSelf] using hc
        have happ := take_succ_drop s start stop (by omega) (by omega)
        by_cases ha : asciiSpace (s.getD stop 0) = false
        · rw [if_pos ha]
          simp only [true_and, forall_true_left]
          rw [happ, trimRight_append_ascii _ _ hc', ha]
          simp
        · rw [if_neg ha]
          have ha' : asciiSpace (s.getD stop 0) = true := by simpa using ha
          obtain ⟨h1, h2⟩ := ih (by omega)
          refine ⟨?_, h2⟩
          rw [happ, trimRight_append_ascii _ _ hc', ha', if_pos rfl]
          exact h1
    · rw [if_neg hlt]
      simp only [true_and, forall_true_left]
      have : (s.take (stop + 1)).drop start = [] := by
        apply List.drop_eq_nil_of_le
        simp only [List.length_take]
        omega
      rw [this, trimRight_nil]

/-- The function `strings.TrimSpace` removes the surrounding whitespace. -/
theorem TrimSpace_eq (s : GoString) : TrimSpace s = trim s := by
  obtain ⟨h1, h2, h3⟩ := trimSpaceStart_spec s 0
  unfold TrimSpace
  rcases hst : trimSpaceStart s 0 with ⟨start, b⟩
  rw [hst] at h1 h2 h3
  simp only [Nat.sub_zero] at h2 h3
  cases b with
  | true =>
    simp only
    rw [TrimFunc_eq, trim, trim, ← h2]
  | false =>
    simp only
    have hl : trimLeft s = s.drop start := by rw [h2, h3 rfl]
    obtain ⟨q1, q2⟩ := trimSpaceStop_spec s start s.length (le_refl _)
    rw [List.take_length] at q1
    rcases hsp : trimSpaceStop s start s.length with ⟨stop, b'⟩
    rw [hsp] at q1 q2
    simp only at q1 q2
    rw [trim, hl, q1]
    cases b' with
    | true => simp only; rw [TrimRightFunc_eq]
    | false => simp only; rw [q2 rfl]

end strings
namespace Spec
open utf8 unicode strings

theorem dropLeadingSpace_suffix (fuel : Nat) : ∀ (s : GoString), dropLeadingSpace fuel s <:+ s := by
  induction fuel with
  | zero => intro s; exact List.suffix_refl s
  | succ fuel ih =>
    intro s
    simp only [dropLeadingSpace]
    split_ifs with h1 h2
    · exact List.nil_suffix
    · exact (ih _).trans (List.drop_suffix _ s)
    · exact List.suffix_refl s

theorem dropTrailingSpace_isPre (fuel : Nat) : ∀ (s : GoString), dropTrailingSpace fuel s <+: s := by
  induction fuel with
  | zero => intro s; exact List.prefix_refl s
  | succ fuel ih =>
    intro s
    simp only [dropTrailingSpace]
    split_ifs with h1 h2
    · exact List.nil_prefix
    · exact (ih _).trans ( List.take_prefix _ s)
    · exact List.prefix_refl s

theorem trimLeft_suffix (s : GoString) : trimLeft s <:+ s := dropLeadingSpace_suffix _ s

theorem trimRight_isPre (s : GoString) : trimRight s <+: s := dropTrailingSpace_isPre _ s

theorem trim_sublist (s : GoString) : (trim s).Sublist s :=
  (trimRight_isPre _).sublist.trans (trimLeft_suffix s).sublist

theorem trim_length_le (s : GoString) : (trim s).length ≤ s.length :=
  (trim_sublist s).length_le

theorem mem_of_mem_trim (s : GoString) (y : Nat) (h : y ∈ trim s) : y ∈ s :=
  (trim_sublist s).subset h

/-- After `trimLeft` the first character is not whitespace. -/
theorem trimLeft_first (s : GoString) :
    trimLeft s = [] ∨ IsSpace (DecodeRuneInString (trimLeft s)).1 = false := by
  induction' hn : s.length using Nat.strong_induction_on with n ih generalizing s
  by_cases hs : s = []
  · left; rw [hs]; rfl
  · rw [trimLeft_eq s hs]
    have hw := decode_width s hs
    split_ifs with hsp
    · exact ih _ (by rw [← hn, List.length_drop]; omega) _ rfl
    · right; simpa using hsp

/-- After `trimRight` the last character is not whitespace. -/
theorem trimRight_last (s : GoString) :
    trimRight s = [] ∨ IsSpace (DecodeLastRuneInString (trimRight s)).1 = false := by
  induction' hn : s.length using Nat.strong_induction_on with n ih generalizing s
  by_cases hs : s = []
  · left; rw [hs]; rfl
  · rw [trimRight_eq s hs]
    have hw := decodeLast_width s hs
    split_ifs with hsp
    · exact ih _ (by rw [← hn, List.length_take]; omega) _ rfl
    · right; simpa using hsp

/-- A trimmed line that is not empty starts with a character that is not whitespace. -/
theorem trim_first (s : GoString) (h : trim s ≠ []) :
    IsSpace (DecodeRuneInString (trim s)).1 = false := by
  have hp := trimRight_isPre (trimLeft s)
  rw [List.prefix_iff_eq_take] at hp
  have hlen : 1 ≤ (trim s).length := List.length_pos.mpr h
  have hne : trimLeft s ≠ [] := by
    intro h0
    apply h
    rw [trim, h0]
    rfl
  have hf := (trimLeft_first s).resolve_left hne
  rw [trim, hp]
  rcases decode_take_or (trimLeft s) (trimRight (trimLeft s)).length hlen with h1 | h1
  · rw [h1]; exact hf
  · rw [h1]; exact isSpace_runeError

/-- A trimmed line that is not empty ends with a character that is not whitespace. -/
theorem trim_last (s : GoString) (h : trim s ≠ []) :
    IsSpace (DecodeLastRuneInString (trim s)).1 = false :=
  (trimRight_last (trimLeft s)).resolve_left h

/-- A line without surrounding whitespace is left as it is. -/
theorem trim_fixed (s : GoString) (h1 : IsSpace (DecodeRuneInString s).1 = false)
    (h2 : IsSpace (DecodeLastRuneInString s).1 = false) : trim s = s := by
  by_cases hs : s = []
  · rw [hs]; rfl
  · have hl : trimLeft s = s := by
      rw [trimLeft_eq s hs, h1]
      simp
    rw [trim, hl, trimRight_eq s hs, h2]
    simp

/-- Trimming is idempotent. -/
theorem trim_idem (s : GoString) : trim (trim s) = trim s := by
  by_cases h : trim s = []
  · rw [h]; rfl
  · exact trim_fixed _ (trim_first s h) (trim_last s h)

theorem notCont_cr : notCont 0x0D := Or.inl (by decide)

theorem trimLeft_append_cr (l : GoString) :
    trimLeft (l ++ [0x0D]) = if trimLeft l = [] then [] else trimLeft l ++ [0x0D] := by
  induction' hn : l.length using Nat.strong_induction_on with n ih generalizing l
  by_cases hl : l = []
  · subst hl
    rw [List.nil_append, trimLeft_cons_ascii _ _ (by decide)]
    simp [trimLeft_nil]
    decide
  · have hw := decode_width l hl
    rw [trimLeft_eq (l ++ [0x0D]) (by simp), trimLeft_eq l hl,
      decode_append l [] 0x0D hl notCont_cr]
    by_cases hsp : IsSpace (DecodeRuneInString l).1 = true
    · rw [if_pos hsp, if_pos hsp, List.drop_append_of_le_length hw.2]
      exact ih _ (by rw [← hn, List.length_drop]; omega) _ rfl
    · rw [if_neg hsp, if_neg hsp, if_neg hl]

/-- A carriage return at the end of a line is trimmed with the other whitespace. -/
theorem trim_append_cr (l : GoString) : trim (l ++ [0x0D]) = trim l := by
  rw [trim, trim, trimLeft_append_cr]
  split_ifs with h
  · rw [h]
  · rw [trimRight_append_ascii _ _ (by decide)]
    simp
    intro h'
    exact absurd h' (by decide)

end Spec

namespace bufio
open Spec

theorem trim_dropCR (data : GoString) : trim (dropCR data) = trim data := by
  unfold dropCR
  split_ifs with h
  · have hne : data ≠ [] := List.length_pos.mp h.1
    have : data = data.take (data.length - 1) ++ [0x0D] := by
      conv_lhs => rw [← List.take_append_drop (data.length - 1) data]
      rw [utf8.drop_length_sub_one data hne, h.2]
    conv_rhs => rw [this]
    rw [trim_append_cr]
  · rfl

theorem MaxScanTokenSize_pos : 0 < MaxScanTokenSize := by decide

theorem IndexByte_of_not_mem (l : GoString) (c : Nat) (h : c ∉ l) : IndexByte l c = none := by
  induction l with
  | nil => rfl
  | cons b rest ih =>
    simp only [List.mem_cons, not_or] at h
    simp only [IndexByte, if_neg (Ne.symm h.1), ih h.2, Option.map_none']

theorem IndexByte_append (l r : GoString) (c : Nat) (h : c ∉ l) :
    IndexByte (l ++ c :: r) c = some l.length := by
  induction l with
  | nil => simp [IndexByte]
  | cons b rest ih =>
    simp only [List.mem_cons, not_or] at h
    simp only [List.cons_append, IndexByte, if_neg (Ne.symm h.1), List.append_eq, ih h.2,
      Option.map_some', List.length_cons]

/-- A call of `Scan` on input whose first line ends with a line feed. -/
theorem Scan_line (l rest : GoString) (h : 0x0A ∉ l) :
    Scan (l ++ 0x0A :: rest) =
      if l.length < MaxScanTokenSize then .token (dropCR l) rest else .tooLong := by
  unfold Scan ScanLines
  have hpos := MaxScanTokenSize_pos
  generalize MaxScanTokenSize = N at *
  by_cases hl : l.length < N
  · rw [if_pos hl]
    have ht : (l ++ 0x0A :: rest).take N = l ++ 0x0A :: rest.take (N - l.length - 1) := by
      rw [List.take_append_eq_append_take, List.take_of_length_le (by omega)]
      obtain ⟨k, hk⟩ : ∃ k, N - l.length = k + 1 := ⟨N - l.length - 1, by omega⟩
      rw [hk, List.take_succ_cons]
      simp
    rw [ht, IndexByte_append _ _ _ h]
    simp only [List.length_append, List.length_cons]
    rw [if_neg (by omega)]
    simp only [List.take_left']
    rw [List.drop_append]
    rfl
  · rw [if_neg hl]
    have ht : (l ++ 0x0A :: rest).take N = l.take N := by
      rw [List.take_append_eq_append_take]
      have : N - l.length = 0 := by omega
      rw [this]
      simp
    have hnm : 0x0A ∉ l.take N := fun hm => h (List.mem_of_mem_take hm)
    rw [ht, IndexByte_of_not_mem _ _ hnm]
    have hlen : ¬ (l.length + (rest.length + 1) < N) := by omega
    simp [hlen]

/-- A call of `Scan` on input without a line feed. -/
theorem Scan_last (l : GoString) (h : 0x0A ∉ l) :
    Scan l =
      if l.length < MaxScanTokenSize then (if l = [] then .done else .token (dropCR l) [])
      else .tooLong := by
  unfold Scan ScanLines
  have hpos := MaxScanTokenSize_pos
  generalize MaxScanTokenSize = N at *
  have hnm : 0x0A ∉ l.take N := fun hm => h (List.mem_of_mem_take hm)
  rw [IndexByte_of_not_mem _ _ hnm]
  by_cases hl : l.length < N
  · rw [if_pos hl]
    rw [List.take_of_length_le (by omega)]
    by_cases hnil : l = []
    · subst hnil
      simp [hpos]
    · have : l.length ≠ 0 := fun h0 => hnil (List.length_eq_zero.mp h0)
      simp [hl, this, hnil]
  · rw [if_neg hl]
    simp [hl]

end bufio

namespace Spec

theorem splitLines_of_not_mem (l : GoString) (h : 0x0A ∉ l) : splitLines l = [l] := by
  induction l with
  | nil => rfl
  | cons b rest ih =>
    simp only [List.mem_cons, not_or] at h
    simp only [splitLines, if_neg (Ne.symm h.1), ih h.2]

theorem splitLines_append (l rest : GoString) (h : 0x0A ∉ l) :
    splitLines (l ++ 0x0A :: rest) = l :: splitLines rest := by
  induction l with
  | nil => simp [splitLines]
  | cons b l' ih =>
    simp only [List.mem_cons, not_or] at h
    simp only [List.cons_append, splitLines, if_neg (Ne.symm h.1), List.append_eq, ih h.2]

/-- A text has no line feed, or a first line that ends with one. -/
theorem exists_first_line (text : GoString) :
    0x0A ∉ text ∨ ∃ l rest, text = l ++ 0x0A :: rest ∧ 0x0A ∉ l := by
  induction text with
  | nil => left; simp
  | cons b t ih =>
    by_cases hb : b = 0x0A
    · right; exact ⟨[], t, by simp [hb], by simp⟩
    · rcases ih with h | ⟨l, rest, h1, h2⟩
      · left
        simp only [List.mem_cons, not_or]
        exact ⟨Ne.symm hb, h⟩
      · right
        refine ⟨b :: l, rest, by simp [h1], ?_⟩
        simp only [List.mem_cons, not_or]
        exact ⟨Ne.symm hb, h2⟩

theorem hasPrefix_eq (s p : GoString) : strings.HasPrefix s p = decide (p <+: s) := by
  unfold strings.HasPrefix
  rw [Bool.eq_iff_iff]
  simp only [decide_eq_true_eq, ge_iff_le]
  constructor
  · rintro ⟨-, h2⟩
    rw [List.prefix_iff_eq_take]
    exact h2.symm
  · intro h
    exact ⟨h.length_le, (List.prefix_iff_eq_take.mp h).symm⟩

end Spec
open Spec bufio

theorem scanLoop_token (fuel : Nat) (input : GoString) (accs : List GoString)
    (text rest : GoString) (h : Scan input = .token text rest) :
    scanLoop (fuel + 1) input accs =
      scanLoop fuel rest
        (if trim text ≠ [] ∧ strings.HasPrefix (trim text) http = false then
          accs ++ [trim text] else accs) := by
  simp only [scanLoop, h, strings.TrimSpace_eq]
  split_ifs <;> rfl

theorem scanLoop_nil (fuel : Nat) (accs : List GoString) : scanLoop fuel [] accs = (accs, none) := by
  cases fuel with
  | zero => rfl
  | succ fuel =>
    have h : Scan [] = .done := by
      rw [Scan_last [] (by simp), if_pos (by simpa using MaxScanTokenSize_pos), if_pos rfl]
    simp only [scanLoop, h]

theorem scanLoop_tooLong (fuel : Nat) (input : GoString) (accs : List GoString)
    (h : Scan input = .tooLong) :
    scanLoop (fuel + 1) input accs = (accs, some .errTooLong) := by
  simp only [scanLoop, h]

namespace Spec

theorem parse_last (l : GoString) (h : 0x0A ∉ l) :
    parse l =
      if trim l ≠ [] ∧ strings.HasPrefix (trim l) http = false then [trim l] else [] := by
  unfold parse beginsWithHttp
  rw [splitLines_of_not_mem l h]
  simp only [hasPrefix_eq, List.map_cons, List.map_nil, List.filter_cons, List.filter_nil]
  by_cases h1 : trim l = []
  · simp [h1]
  · by_cases h2 : http <+: trim l
    · simp [h1, h2]
    · simp [h1, h2]

theorem parse_line (l rest : GoString) (h : 0x0A ∉ l) :
    parse (l ++ 0x0A :: rest) =
      (if trim l ≠ [] ∧ strings.HasPrefix (trim l) http = false then [trim l] else []) ++
        parse rest := by
  unfold parse beginsWithHttp
  rw [splitLines_append l rest h]
  simp only [hasPrefix_eq, List.map_cons, List.filter_cons]
  by_cases h1 : trim l = []
  · simp [h1]
  · by_cases h2 : http <+: trim l
    · simp [h1, h2]
    · simp [h1, h2]

end Spec

/-- When every line fits the scanner's buffer, the loop builds the parse of the
specification and the scanner reports no error. -/
theorem scanLoop_ok (fuel : Nat) : ∀ (input : GoString) (accs : List GoString),
    input.length < fuel → (∀ l ∈ splitLines input, l.length < MaxScanTokenSize) →
      scanLoop fuel input accs = (accs ++ parse input, none) := by
  induction fuel with
  | zero => intro input accs h; omega
  | succ fuel ih =>
    intro input accs hlen hall
    rcases exists_first_line input with h | ⟨l, rest, rfl, h⟩
    · rw [splitLines_of_not_mem input h] at hall
      have hshort := hall input (by simp)
      have hscan := Scan_last input h
      rw [if_pos hshort] at hscan
      rw [parse_last input h]
      by_cases hnil : input = []
      · subst hnil
        rw [scanLoop_nil]
        simp
        intro h0
        exact absurd rfl h0
      · rw [if_neg hnil] at hscan
        rw [scanLoop_token fuel input accs _ _ hscan, scanLoop_nil, trim_dropCR]
        split_ifs <;> simp
    · rw [splitLines_append l rest h] at hall
      have hshort := hall l (by simp)
      have hscan := Scan_line l rest h
      rw [if_pos hshort] at hscan
      rw [scanLoop_token fuel _ accs _ _ hscan, trim_dropCR, parse_line l rest h]
      rw [ih rest _ (by simp only [List.length_append, List.length_cons] at hlen; omega)
        (fun x hx => hall x (by simp [hx]))]
      split_ifs <;> simp

/-- When some line does not fit the scanner's buffer, the scanner reports `ErrTooLong`. -/
theorem scanLoop_tooLong_of_long (fuel : Nat) : ∀ (input : GoString) (accs : List GoString),
    input.length < fuel → (∃ l ∈ splitLines input, MaxScanTokenSize ≤ l.length) →
      (scanLoop fuel input accs).2 = some .errTooLong := by
  induction fuel with
  | zero => intro input accs h; omega
  | succ fuel ih =>
    intro input accs hlen hex
    rcases exists_first_line input with h | ⟨l, rest, rfl, h⟩
    · rw [splitLines_of_not_mem input h] at hex
      obtain ⟨x, hx, hlong⟩ := hex
      simp only [List.mem_singleton] at hx
      subst hx
      have hscan := Scan_last x h
      rw [if_neg (by omega)] at hscan
      rw [scanLoop_tooLong fuel x accs hscan]
    · rw [splitLines_append l rest h] at hex
      have hscan := Scan_line l rest h
      by_cases hshort : l.length < MaxScanTokenSize
      · rw [if_pos hshort] at hscan
        rw [scanLoop_token fuel _ accs _ _ hscan]
        apply ih
        · simp only [List.length_append, List.length_cons] at hlen; omega
        · obtain ⟨x, hx, hlong⟩ := hex
          simp only [List.mem_cons] at hx
          rcases hx with rfl | hx
          · omega
          · exact ⟨x, hx, hlong⟩
      · rw [if_neg hshort] at hscan
        rw [scanLoop_tooLong fuel _ accs hscan]

/-- The scanner reports no error exactly when every line is shorter than its buffer. -/
theorem scanOutput_err_none_iff (output : GoString) :
    (scanOutput output).2 = none ↔ ∀ l ∈ splitLines output, l.length < MaxScanTokenSize := by
  constructor
  · intro h l hl
    by_contra hlong
    have := scanLoop_tooLong_of_long (output.length + 1) output [] (by omega)
      ⟨l, hl, by omega⟩
    rw [scanOutput, this] at h
    cases h
  · intro h
    rw [scanOutput, scanLoop_ok _ output [] (by omega) h]

/-- Without a scanner error, the slice built is the parse of the specification. -/
theorem scanOutput_eq_parse (output : GoString) (h : (scanOutput output).2 = none) :
    scanOutput output = (parse output, none) := by
  rw [scanOutput, scanLoop_ok _ output [] (by omega) ((scanOutput_err_none_iff output).mp h)]
  simp

theorem getLabels_result (w : World) (n : Nat) (days : Int) :
    (getLabels w n days).1 =
      match w.output n (.labels days) with
      | .error err => .error (.labelsCommandFailed err)
      | .ok output =>
        match scanOutput output with
        | (_, some err) => .error (.labelsParseFailed err)
        | (labels, none) => .ok labels := by
  unfold getLabels
  cases h : w.output n (Command.labels days) with
  | error e => simp only [h]
  | ok out =>
    simp only [h]
    rcases hs : scanOutput out with ⟨a, _ | e⟩ <;> simp only [hs]

theorem getLabelValues_result (w : World) (n : Nat) (label : GoString) (days : Int) :
    (getLabelValues w n label days).1 =
      match w.output n (.labelValues label days) with
      | .error err => .error (.valuesCommandFailed label err)
      | .ok output =>
        match scanOutput output with
        | (_, some err) => .error (.valuesParseFailed err)
        | (values, none) => .ok values := by
  unfold getLabelValues
  cases h : w.output n (Command.labelValues label days) with
  | error e => simp only [h]
  | ok out =>
    simp only [h]
    rcases hs : scanOutput out with ⟨a, _ | e⟩ <;> simp only [hs]

namespace Spec

theorem splitLines_no_lf (text : GoString) : ∀ l ∈ splitLines text, 0x0A ∉ l := by
  induction' hn : text.length using Nat.strong_induction_on with n ih generalizing text
  intro l hl
  rcases exists_first_line text with h | ⟨l₀, rest, rfl, h⟩
  · rw [splitLines_of_not_mem text h] at hl
    simp only [List.mem_singleton] at hl
    rw [hl]; exact h
  · rw [splitLines_append l₀ rest h] at hl
    simp only [List.mem_cons] at hl
    rcases hl with rfl | hl
    · exact h
    · exact ih rest.length (by rw [← hn]; simp only [List.length_append, List.length_cons]; omega)
        rest rfl l hl

/-- Every entry of the parse is the trimmed form of a line; it is not empty and
does not begin with `http`. -/
theorem mem_parse (text e : GoString) (h : e ∈ parse text) :
    ∃ l ∈ splitLines text, e = trim l ∧ e ≠ [] ∧ ¬ (http <+: e) := by
  unfold parse beginsWithHttp at h
  simp only [List.mem_filter, List.mem_map, Bool.and_eq_true, decide_eq_true_eq,
    Bool.not_eq_true', decide_eq_false_iff_not] at h
  obtain ⟨⟨l, hl, rfl⟩, h1, h2⟩ := h
  exact ⟨l, hl, rfl, h1, h2⟩

/-- Every line whose trimmed form is not empty and does not begin with `http` is kept. -/
theorem mem_parse_of_line (text l : GoString) (hl : l ∈ splitLines text) (h1 : trim l ≠ [])
    (h2 : ¬ (http <+: trim l)) : trim l ∈ parse text := by
  unfold parse beginsWithHttp
  simp only [List.mem_filter, List.mem_map, Bool.and_eq_true, decide_eq_true_eq,
    Bool.not_eq_true', decide_eq_false_iff_not]
  exact ⟨⟨l, hl, rfl⟩, h1, h2⟩

/-- A string that starts with a character that is not whitespace is not only whitespace. -/
theorem onlyWhitespace_false (s : GoString) (hs : s ≠ [])
    (h : unicode.IsSpace (utf8.DecodeRuneInString s).1 = false) : onlyWhitespace s = false := by
  have hlen : 0 < s.length := List.length_pos.mpr hs
  obtain ⟨g, hg⟩ : ∃ g, s.length = g + 1 := ⟨s.length - 1, by omega⟩
  unfold onlyWhitespace
  rw [hg]
  simp only [runes, hs, if_false, List.all_cons, h, Bool.false_and]

end Spec

/-- The entries written one per line are scanned back as they are. -/
theorem scanLoop_serialize (P : List GoString) : ∀ (fuel : Nat) (accs : List GoString),
    (serialize P).length < fuel →
    (∀ e ∈ P, e ≠ [] ∧ 0x0A ∉ e ∧ e.length < MaxScanTokenSize ∧
      strings.HasPrefix e http = false ∧ trim e = e) →
    scanLoop fuel (serialize P) accs = (accs ++ P, none) := by
  induction P with
  | nil =>
    intro fuel accs _ _
    rw [show serialize [] = [] from rfl, scanLoop_nil]
    simp
  | cons e P ih =>
    intro fuel accs hlen hgood
    obtain ⟨h1, h2, h3, h4, h5⟩ := hgood e (by simp)
    have hser : serialize (e :: P) = e ++ 0x0A :: serialize P := by
      simp [serialize]
    rw [hser] at hlen ⊢
    obtain ⟨g, rfl⟩ : ∃ g, fuel = g + 1 := ⟨fuel - 1, by omega⟩
    have hscan := Scan_line e (serialize P) h2
    rw [if_pos h3] at hscan
    rw [scanLoop_token g _ accs _ _ hscan, trim_dropCR, h5, if_pos ⟨h1, h4⟩]
    rw [ih g _ (by simp only [List.length_append, List.length_cons] at hlen; omega)
      (fun x hx => hgood x (by simp [hx]))]
    simp

/-- The entries of a parse that the scanner accepted can be written and scanned again. -/
theorem parse_entries_good (text : GoString)
    (hshort : ∀ l ∈ splitLines text, l.length < MaxScanTokenSize) :
    ∀ e ∈ parse text, e ≠ [] ∧ 0x0A ∉ e ∧ e.length < MaxScanTokenSize ∧
      strings.HasPrefix e http = false ∧ trim e = e := by
  intro e he
  obtain ⟨l, hl, rfl, h1, h2⟩ := mem_parse text e he
  refine ⟨h1, ?_, ?_, ?_, trim_idem l⟩
  · intro hm
    exact splitLines_no_lf text l hl (mem_of_mem_trim l _ hm)
  · exact lt_of_le_of_lt (trim_length_le l) (hshort l hl)
  · rw [hasPrefix_eq]
    simpa using h2

/-- Scanning the written entries of an accepted parse gives the same entries. -/
theorem scanOutput_serialize (text : GoString) (P : List GoString)
    (h : scanOutput text = (P, none)) : scanOutput (serialize P) = (P, none) := by
  have herr : (scanOutput text).2 = none := by rw [h]
  have hP : P = parse text := by
    have := scanOutput_eq_parse text herr
    rw [h] at this
    exact congrArg Prod.fst this
  have hshort := (scanOutput_err_none_iff text).mp herr
  have hgood := parse_entries_good text hshort
  rw [← hP] at hgood
  rw [scanOutput, scanLoop_serialize P _ [] (by omega) hgood]
  simp

theorem savedSnapshots_append (a b : List Event) :
    savedSnapshots (a ++ b) = savedSnapshots a ++ savedSnapshots b := by
  simp [savedSnapshots, List.filterMap_append]

theorem savedSnapshots_loopBody (w : World) (days : Int) (total : Nat) (st : LoopState) (i : Nat)
    (label : GoString) :
    savedSnapshots (loopBody w days total st i label).trace = savedSnapshots st.trace := by
  obtain ⟨m, hm, -⟩ := loopBody_trace w days total st i label
  rw [hm, savedSnapshots_append]
  simp [savedSnapshots]

theorem savedSnapshots_labelLoop (w : World) (days : Int) (total : Nat) (labels : List GoString) :
    ∀ (st : LoopState) (i : Nat),
      savedSnapshots (labelLoop w days total st i labels).trace = savedSnapshots st.trace := by
  induction labels with
  | nil => intro st i; rfl
  | cons x rest ih =>
    intro st i
    simp only [labelLoop]
    rw [ih, savedSnapshots_loopBody]

theorem savedSnapshots_saveIndexData (w : World) (data : IndexData) (filename : GoString) :
    savedSnapshots (saveIndexData w data filename).2 = [data] := by
  unfold saveIndexData
  cases h : w.marshalIndent data with
  | error e => simp [savedSnapshots]
  | ok json =>
    simp only [h]
    cases h' : w.writeFile filename json <;> simp [savedSnapshots]

theorem dumpIndex_unset (w : World) (days : Int) (outputFile : GoString)
    (h : Getenv w.LOKI_ADDR = []) : dumpIndex w days outputFile = (some .lokiAddrNotSet, []) := by
  unfold dumpIndex
  rw [if_pos h]

theorem dumpIndex_notFound (w : World) (days : Int) (outputFile : GoString)
    (henv : Getenv w.LOKI_ADDR ≠ []) (h : w.logcliInPath = false) :
    dumpIndex w days outputFile =
      (some .logcliNotFound, [Event.print (.dumping days), .lookPath]) := by
  unfold dumpIndex
  rw [if_neg henv]
  simp only [h, if_true]

theorem dumpIndex_getLabels_error (w : World) (days : Int) (outputFile : GoString) (err : GoError)
    (henv : Getenv w.LOKI_ADDR ≠ []) (hpath : w.logcliInPath = true)
    (hL : (getLabels w 0 days).1 = .error err) :
    dumpIndex w days outputFile =
      (some (.getLabelsFailed err),
        [Event.print (.dumping days), .lookPath, .print .fetchingLabels, .callGetLabels days,
          .print (.executing (.labels days)), .spawn (.labels days)]) := by
  unfold dumpIndex
  rw [if_neg henv]
  simp only [hpath, Bool.true_eq_false, if_false, hL, getLabels_events]
  rfl

/-- A run of `dumpIndex` that obtained the labels: what it returns and its trace. -/
theorem dumpIndex_labels (w : World) (days : Int) (outputFile : GoString) (L : List GoString)
    (henv : Getenv w.LOKI_ADDR ≠ []) (hpath : w.logcliInPath = true)
    (hL : (getLabels w 0 days).1 = .ok L) :
    (dumpIndex w days outputFile).1 =
        (saveIndexData w (snapshotOf w days L) outputFile).1.map GoError.saveFailed ∧
      ∃ tail, (dumpIndex w days outputFile).2 =
        (stateAfter w days L L).trace ++ (saveIndexData w (snapshotOf w days L) outputFile).2 ++
          tail ∧ savedSnapshots tail = [] ∧ ∀ e ∈ tail, e.isWriteFile = false := by
  unfold dumpIndex
  rw [if_neg henv]
  simp only [hpath, Bool.true_eq_false, if_false, hL]
  have hst : labelLoop w days L.length
      { Values := GoMap.empty,
        trace := [Event.print (.dumping days), .lookPath] ++ [.print .fetchingLabels] ++
          (getLabels w 0 days).2 ++ [.print (.foundLabels L.length)],
        spawned := 1 } 0 L = stateAfter w days L L := rfl
  rw [hst]
  have hsnap : IndexData.mk L (stateAfter w days L L).Values w.now days = snapshotOf w days L :=
    rfl
  rw [hsnap]
  cases hs : (saveIndexData w (snapshotOf w days L) outputFile).1 with
  | some e =>
    simp only [Option.map_some']
    exact ⟨trivial, [], by simp, rfl, by simp⟩
  | none =>
    simp only [Option.map_none']
    refine ⟨trivial, _, rfl, rfl, ?_⟩
    intro e he
    simp only [List.mem_cons, List.mem_singleton, List.not_mem_nil, or_false] at he
    rcases he with rfl | rfl | rfl <;> rfl

theorem savedSnapshots_traceBeforeLoop (w : World) (days : Int) (labels : List GoString) :
    savedSnapshots (traceBeforeLoop w days labels) = [] := by
  unfold traceBeforeLoop
  rw [getLabels_events]
  rfl

/-- A run hands a snapshot to `saveIndexData` only after `getLabels` succeeded, and
the snapshot is the one built from the labels. -/
theorem savedSnapshots_dumpIndex (w : World) (days : Int) (outputFile : GoString)
    (snap : IndexData) (h : snap ∈ savedSnapshots (dumpIndex w days outputFile).2) :
    ∃ L, Getenv w.LOKI_ADDR ≠ [] ∧ w.logcliInPath = true ∧ (getLabels w 0 days).1 = .ok L ∧
      snap = snapshotOf w days L := by
  by_cases henv : Getenv w.LOKI_ADDR = []
  · rw [dumpIndex_unset w days outputFile henv] at h
    simp [savedSnapshots] at h
  · by_cases hpath : w.logcliInPath = true
    · cases hL : (getLabels w 0 days).1 with
      | error err =>
        rw [dumpIndex_getLabels_error w days outputFile err henv hpath hL] at h
        simp [savedSnapshots] at h
      | ok L =>
        obtain ⟨-, tail, ht, htail, -⟩ := dumpIndex_labels w days outputFile L henv hpath hL
        rw [ht, savedSnapshots_append, savedSnapshots_append, htail, stateAfter,
          savedSnapshots_labelLoop, savedSnapshots_saveIndexData] at h
        simp only [savedSnapshots_traceBeforeLoop, List.nil_append, List.append_nil,
          List.mem_singleton] at h
        exact ⟨L, henv, hpath, rfl, h⟩
    · have hpath' : w.logcliInPath = false := by simpa using hpath
      rw [dumpIndex_notFound w days outputFile henv hpath'] at h
      simp [savedSnapshots] at h

/-- In a run that obtained the labels, exactly one snapshot is handed to `saveIndexData`. -/
theorem savedSnapshots_dumpIndex_labels (w : World) (days : Int) (outputFile : GoString)
    (L : List GoString) (henv : Getenv w.LOKI_ADDR ≠ []) (hpath : w.logcliInPath = true)
    (hL : (getLabels w 0 days).1 = .ok L) :
    savedSnapshots (dumpIndex w days outputFile).2 = [snapshotOf w days L] := by
  obtain ⟨-, tail, ht, htail, -⟩ := dumpIndex_labels w days outputFile L henv hpath hL
  rw [ht, savedSnapshots_append, savedSnapshots_append, htail, stateAfter,
    savedSnapshots_labelLoop, savedSnapshots_saveIndexData, savedSnapshots_traceBeforeLoop]
  rfl

/-- When the command printed `text` and `getLabels` returned `P`, the scan of `text`
built `P` without error. -/
theorem getLabels_ok (w : World) (n : Nat) (days : Int) (text : GoString) (P : List GoString)
    (hout : w.output n (.labels days) = .ok text) (h : (getLabels w n days).1 = .ok P) :
    scanOutput text = (P, none) := by
  rw [getLabels_result, hout] at h
  simp only at h
  rcases hs : scanOutput text with ⟨a, _ | e⟩
  · rw [hs] at h
    simp only [Except.ok.injEq] at h
    rw [h]
  · rw [hs] at h
    cases h

theorem getLabelValues_ok (w : World) (n : Nat) (label : GoString) (days : Int) (text : GoString)
    (P : List GoString) (hout : w.output n (.labelValues label days) = .ok text)
    (h : (getLabelValues w n label days).1 = .ok P) : scanOutput text = (P, none) := by
  rw [getLabelValues_result, hout] at h
  simp only at h
  rcases hs : scanOutput text with ⟨a, _ | e⟩
  · rw [hs] at h
    simp only [Except.ok.injEq] at h
    rw [h]
  · rw [hs] at h
    cases h

theorem getLabels_of_scan (w : World) (n : Nat) (days : Int) (text : GoString)
    (P : List GoString) (hout : w.output n (.labels days) = .ok text)
    (h : scanOutput text = (P, none)) : (getLabels w n days).1 = .ok P := by
  rw [getLabels_result, hout]
  simp only [h]

theorem getLabelValues_of_scan (w : World) (n : Nat) (label : GoString) (days : Int)
    (text : GoString) (P : List GoString) (hout : w.output n (.labelValues label days) = .ok text)
    (h : scanOutput text = (P, none)) : (getLabelValues w n label days).1 = .ok P := by
  rw [getLabelValues_result, hout]
  simp only [h]

/-- What either function returned is the parse of the text its command printed. -/
theorem parsed_eq_parse (w : World) (n : Nat) (days : Int) (label text : GoString)
    (P : List GoString)
    (h : (w.output n (.labels days) = .ok text ∧ (getLabels w n days).1 = .ok P) ∨
      (w.output n (.labelValues label days) = .ok text ∧
        (getLabelValues w n label days).1 = .ok P)) : P = parse text := by
  have hs : scanOutput text = (P, none) := by
    rcases h with ⟨h1, h2⟩ | ⟨h1, h2⟩
    · exact getLabels_ok w n days text P h1 h2
    · exact getLabelValues_ok w n label days text P h1 h2
  have herr : (scanOutput text).2 = none := by rw [hs]
  have := scanOutput_eq_parse text herr
  rw [hs] at this
  exact congrArg Prod.fst this

/-- C1: on every captured output text whose scan does not fail, `getLabels` and
`getLabelValues` both return the reference parse: the text split into lines, each
line trimmed, the lines that are empty after trimming and those whose trimmed form
begins with `http` dropped, the others kept in order. -/
theorem getLabels_getLabelValues_eq_reference (w : World) (n : Nat) (days : Int)
    (label text : GoString) (hscan : (scanOutput text).2 = none) :
    (w.output n (.labels days) = .ok text → (getLabels w n days).1 = .ok (parse text)) ∧
      (w.output n (.labelValues label days) = .ok text →
        (getLabelValues w n label days).1 = .ok (parse text)) :=
  ⟨fun hout => getLabels_of_scan w n days text _ hout (scanOutput_eq_parse text hscan),
    fun hout => getLabelValues_of_scan w n label days text _ hout (scanOutput_eq_parse text hscan)⟩

/-- An instance of C1 on a text with a carriage return, blanks, a logged URL and an empty line. -/
theorem getLabels_getLabelValues_eq_reference_witness :
    (scanOutput Example.noisyText).2 = none ∧
      (getLabels Example.noisyWorld 0 30).1 = .ok (parse Example.noisyText) ∧
      (getLabelValues Example.noisyWorld 1 (lit "job") 30).1 = .ok (parse Example.noisyText) ∧
      parse Example.noisyText = [lit "job", lit "env", lit "HTTP", lit "last"] :=
  ⟨by decide,
    (getLabels_getLabelValues_eq_reference Example.noisyWorld 0 30 (lit "job") Example.noisyText
      (by decide)).1 rfl,
    (getLabels_getLabelValues_eq_reference Example.noisyWorld 1 30 (lit "job") Example.noisyText
      (by decide)).2 rfl,
    by decide⟩

/-- Every entry the loop appends is a trimmed token that is not empty and does not
begin with `http`, whether or not the scanner fails later. -/
theorem scanLoop_entries (fuel : Nat) : ∀ (input : GoString) (accs : List GoString),
    (∀ e ∈ accs, e ≠ [] ∧ strings.HasPrefix e http = false ∧ ∃ x, e = trim x) →
    ∀ e ∈ (scanLoop fuel input accs).1,
      e ≠ [] ∧ strings.HasPrefix e http = false ∧ ∃ x, e = trim x := by
  induction fuel with
  | zero => intro input accs h e he; exact h e he
  | succ fuel ih =>
    intro input accs h e he
    cases hs : Scan input with
    | token text rest =>
      rw [scanLoop_token fuel input accs text rest hs] at he
      refine ih rest _ ?_ e he
      intro e' he'
      split_ifs at he' with hc
      · rcases List.mem_append.mp he' with h' | h'
        · exact h e' h'
        · simp only [List.mem_singleton] at h'
          subst h'
          exact ⟨hc.1, hc.2, text, rfl⟩
      · exact h e' he'
    | done =>
      simp only [scanLoop, hs] at he
      exact h e he
    | tooLong =>
      simp only [scanLoop, hs] at he
      exact h e he

theorem scanOutput_entries (text : GoString) :
    ∀ e ∈ (scanOutput text).1,
      e ≠ [] ∧ strings.HasPrefix e http = false ∧ ∃ x, e = trim x := by
  unfold scanOutput
  apply scanLoop_entries
  intro e he
  cases he

/-- C8: on every captured output text, no entry of the slice the scanning loop of
`getLabels` / `getLabelValues` builds, and so no entry either function returns,
begins with the bytes `http`; the test is on exactly these four bytes, so a line
whose trimmed form is not empty and does not begin with them (such as one
beginning with `HTTP`) is kept in what the functions return. -/
theorem parsed_entries_never_begin_with_http (text : GoString) :
    (∀ e ∈ (scanOutput text).1, strings.HasPrefix e http = false ∧ ¬ (http <+: e)) ∧
    ∀ (w : World) (n : Nat) (days : Int) (label : GoString) (P : List GoString),
      ((w.output n (.labels days) = .ok text ∧ (getLabels w n days).1 = .ok P) ∨
        (w.output n (.labelValues label days) = .ok text ∧
          (getLabelValues w n label days).1 = .ok P)) →
      (∀ e ∈ P, strings.HasPrefix e http = false ∧ ¬ (http <+: e)) ∧
        (∀ l ∈ splitLines text, trim l ≠ [] → ¬ (http <+: trim l) → trim l ∈ P) := by
  constructor
  · intro e he
    obtain ⟨-, h2, -⟩ := scanOutput_entries text e he
    refine ⟨h2, ?_⟩
    rw [hasPrefix_eq] at h2
    simpa using h2
  · intro w n days label P h
    have hP := parsed_eq_parse w n days label text P h
    subst hP
    constructor
    · intro e he
      obtain ⟨l, -, -, -, h2⟩ := mem_parse text e he
      refine ⟨?_, h2⟩
      rw [hasPrefix_eq]
      simpa using h2
    · intro l hl h1 h2
      exact mem_parse_of_line text l hl h1 h2

/-- An instance of C8: the line `HTTP` is kept, the line `http://loki:3100/x` is not. -/
theorem parsed_entries_never_begin_with_http_witness :
    (Example.noisyWorld.output 0 (.labels 30) = .ok Example.noisyText ∧
      (getLabels Example.noisyWorld 0 30).1 =
        .ok [lit "job", lit "env", lit "HTTP", lit "last"]) ∧
    ((∀ e ∈ [lit "job", lit "env", lit "HTTP", lit "last"],
        strings.HasPrefix e http = false ∧ ¬ (http <+: e)) ∧
      (∀ l ∈ splitLines Example.noisyText, trim l ≠ [] → ¬ (http <+: trim l) →
        trim l ∈ [lit "job", lit "env", lit "HTTP", lit "last"])) ∧
    lit " HTTP " ∈ splitLines Example.noisyText ∧
    lit "http://loki:3100/x" ∈ splitLines Example.noisyText :=
  ⟨⟨rfl, rfl⟩,
    (parsed_entries_never_begin_with_http Example.noisyText).2 Example.noisyWorld 0 30 [] _
      (Or.inl ⟨rfl, rfl⟩),
    by decide, by decide⟩

/-- C9: on every captured output text, no entry of the slice the scanning loop of
`getLabels` / `getLabelValues` builds, and so no entry either function returns, is
the empty string or consists only of whitespace characters. -/
theorem parsed_entries_not_blank (text : GoString) :
    (∀ e ∈ (scanOutput text).1, e ≠ [] ∧ onlyWhitespace e = false) ∧
    ∀ (w : World) (n : Nat) (days : Int) (label : GoString) (P : List GoString),
      ((w.output n (.labels days) = .ok text ∧ (getLabels w n days).1 = .ok P) ∨
        (w.output n (.labelValues label days) = .ok text ∧
          (getLabelValues w n label days).1 = .ok P)) →
      ∀ e ∈ P, e ≠ [] ∧ onlyWhitespace e = false := by
  constructor
  · intro e he
    obtain ⟨h1, -, x, rfl⟩ := scanOutput_entries text e he
    exact ⟨h1, onlyWhitespace_false _ h1 (trim_first x h1)⟩
  · intro w n days label P h
    have hP := parsed_eq_parse w n days label text P h
    subst hP
    intro e he
    obtain ⟨l, -, rfl, h1, -⟩ := mem_parse text e he
    exact ⟨h1, onlyWhitespace_false _ h1 (trim_first l h1)⟩

/-- An instance of C9 on the values returned for the label `job`. -/
theorem parsed_entries_not_blank_witness :
    (Example.noisyWorld.output 1 (.labelValues (lit "job") 30) = .ok Example.noisyText ∧
      (getLabelValues Example.noisyWorld 1 (lit "job") 30).1 =
        .ok [lit "job", lit "env", lit "HTTP", lit "last"]) ∧
    ∀ e ∈ [lit "job", lit "env", lit "HTTP", lit "last"], e ≠ [] ∧ onlyWhitespace e = false :=
  ⟨⟨rfl, rfl⟩,
    (parsed_entries_not_blank Example.noisyText).2 Example.noisyWorld 1 30 (lit "job") _
      (Or.inr ⟨rfl, rfl⟩)⟩

/-- C10: the parsing rule is idempotent: when the scan of a text succeeds with the
entries `P`, the text made of the entries of `P`, each followed by a line feed, is
scanned with success and gives `P` again, in `getLabels` and in `getLabelValues`. -/
theorem parse_serialize_idempotent (text : GoString) (P : List GoString)
    (h : scanOutput text = (P, none)) :
    scanOutput (serialize P) = (P, none) ∧
      ∀ (w : World) (n : Nat) (days : Int) (label : GoString),
        (w.output n (.labels days) = .ok (serialize P) → (getLabels w n days).1 = .ok P) ∧
        (w.output n (.labelValues label days) = .ok (serialize P) →
          (getLabelValues w n label days).1 = .ok P) := by
  have hs := scanOutput_serialize text P h
  exact ⟨hs, fun w n days label =>
    ⟨fun hout => getLabels_of_scan w n days _ P hout hs,
      fun hout => getLabelValues_of_scan w n label days _ P hout hs⟩⟩

/-- An instance of C10: the four entries of the example text written and scanned again. -/
theorem parse_serialize_idempotent_witness :
    scanOutput Example.noisyText = ([lit "job", lit "env", lit "HTTP", lit "last"], none) ∧
      scanOutput (serialize [lit "job", lit "env", lit "HTTP", lit "last"]) =
        ([lit "job", lit "env", lit "HTTP", lit "last"], none) ∧
      serialize [lit "job", lit "env", lit "HTTP", lit "last"] = lit "job\nenv\nHTTP\nlast\n" :=
  ⟨by decide, (parse_serialize_idempotent Example.noisyText _ (by decide)).1, by decide⟩

/-- The entry of a key after the loop over `done`, when every call for it failed. -/
theorem stateAfter_get_none (w : World) (days : Int) (L done : List GoString) (k : GoString) :
    (stateAfter w days L done).Values.get k = none ↔
      ∀ j, done[j]? = some k → ∃ err, (getLabelValues w (j + 1) k days).1 = .error err := by
  unfold stateAfter
  rw [labelLoop_get_none]
  simp only [GoMap.empty, GoMap.get, true_and]
  constructor
  · intro h j hj
    have := h j hj
    rwa [Nat.add_comm] at this
  · intro h j hj
    have := h j hj
    rwa [Nat.add_comm]

theorem mem_trace_dumpIndex (w : World) (days : Int) (outputFile : GoString) (L : List GoString)
    (henv : Getenv w.LOKI_ADDR ≠ []) (hpath : w.logcliInPath = true)
    (hL : (getLabels w 0 days).1 = .ok L) (e : Event) (he : e ∈ (stateAfter w days L L).trace) :
    e ∈ (dumpIndex w days outputFile).2 := by
  obtain ⟨-, tail, ht, -, -⟩ := dumpIndex_labels w days outputFile L henv hpath hL
  rw [ht]
  exact List.mem_append_left _ (List.mem_append_left _ he)

namespace GoMap

theorem keys_set (m : GoMap) (k : GoString) (v : List GoString) :
    (m.set k v).keys = if k ∈ m.keys then m.keys else m.keys ++ [k] := by
  induction m with
  | nil => simp [set, keys]
  | cons p rest ih =>
    obtain ⟨k0, v0⟩ := p
    have ih' : List.map Prod.fst (set rest k v) =
        if k ∈ List.map Prod.fst rest then List.map Prod.fst rest
        else List.map Prod.fst rest ++ [k] := ih
    by_cases h0 : k0 = k
    · subst h0
      simp [set, keys]
    · have hne : ¬ k = k0 := fun h => h0 h.symm
      simp only [set, if_neg h0, keys, List.map_cons, List.mem_cons, hne, false_or]
      rw [ih']
      split_ifs <;> simp

/-- The assignment `m[k] = v` keeps every key once. -/
theorem keys_set_nodup (m : GoMap) (k : GoString) (v : List GoString) (h : m.keys.Nodup) :
    (m.set k v).keys.Nodup := by
  rw [keys_set]
  split_ifs with hk
  · exact h
  · rw [List.nodup_append]
    refine ⟨h, List.nodup_singleton k, ?_⟩
    intro a ha hb
    simp only [List.mem_singleton] at hb
    subst hb
    exact hk ha

end GoMap

theorem labelLoop_keys_nodup (w : World) (days : Int) (total : Nat) (labels : List GoString) :
    ∀ (st : LoopState) (i : Nat), st.Values.keys.Nodup →
      (labelLoop w days total st i labels).Values.keys.Nodup := by
  induction labels with
  | nil => intro st i h; exact h
  | cons x rest ih =>
    intro st i h
    simp only [labelLoop]
    apply ih
    cases hx : (getLabelValues w st.spawned x days).1 with
    | error e => rw [loopBody_values_error w days total st i x e hx]; exact h
    | ok v =>
      rw [loopBody_values_ok w days total st i x v hx]
      exact GoMap.keys_set_nodup _ _ _ h

theorem saveIndexData_written (w : World) (data : IndexData) (filename jsonData : GoString)
    (h1 : w.marshalIndent data = .ok jsonData) (h2 : w.writeFile filename jsonData = none) :
    saveIndexData w data filename =
      (none, [.callSaveIndexData data filename, .writeFile filename jsonData]) := by
  unfold saveIndexData
  simp only [h1, h2]

/-- C2: when `getLabels` returned a duplicate-free list `L` and each label's call of
`getLabelValues` had the outcome `o`, the snapshot handed to `saveIndexData` has the
labels `L` in order, the requested days, and as values exactly the map that sends
each label whose fetch succeeded to what the fetch returned; when the file write
succeeds, `dumpIndex` returns no error and the exit status is 0. -/
theorem dumpIndex_snapshot (w : World) (days : Int) (outputFile : GoString) (L : List GoString)
    (o : GoString → Except GoError (List GoString))
    (henv : Getenv w.LOKI_ADDR ≠ []) (hpath : w.logcliInPath = true)
    (hL : (getLabels w 0 days).1 = .ok L) (hnd : L.Nodup)
    (ho : ∀ i k, L[i]? = some k → (getLabelValues w (i + 1) k days).1 = o k) :
    ∃ snap : IndexData,
      savedSnapshots (dumpIndex w days outputFile).2 = [snap] ∧
      snap.Labels = L ∧ snap.Days = days ∧
      (∀ k, snap.Values.get k =
        if k ∈ L then (match o k with | .ok values => some values | .error _ => none)
        else none) ∧
      snap.Values.keys.Nodup ∧
      (∀ jsonData, w.marshalIndent snap = .ok jsonData →
        w.writeFile outputFile jsonData = none →
          (dumpIndex w days outputFile).1 = none ∧
            exitStatus (dumpIndex w days outputFile).1 = 0 ∧
            Event.writeFile outputFile jsonData ∈ (dumpIndex w days outputFile).2) := by
  refine ⟨snapshotOf w days L,
    savedSnapshots_dumpIndex_labels w days outputFile L henv hpath hL, rfl, rfl, ?_, ?_, ?_⟩
  · intro k
    show (stateAfter w days L L).Values.get k = _
    by_cases hk : k ∈ L
    · rw [if_pos hk]
      obtain ⟨j, hj⟩ := List.mem_iff_getElem?.mp hk
      cases hok : o k with
      | error e =>
        simp only
        rw [stateAfter_get_none]
        intro j' hj'
        exact ⟨e, by rw [ho j' k hj', hok]⟩
      | ok v =>
        simp only
        unfold stateAfter
        apply labelLoop_get_nodup w days L.length L _ 0 hnd j k v hj
        show (getLabelValues w (1 + j) k days).1 = .ok v
        rw [Nat.add_comm, ho j k hj, hok]
    · rw [if_neg hk]
      unfold stateAfter
      rw [labelLoop_get_not_mem _ _ _ _ _ _ _ hk]
      rfl
  · show (stateAfter w days L L).Values.keys.Nodup
    unfold stateAfter
    apply labelLoop_keys_nodup
    exact List.nodup_nil
  · intro jsonData hm hwf
    have hsave := saveIndexData_written w (snapshotOf w days L) outputFile jsonData hm hwf
    obtain ⟨h1, tail, ht, -, -⟩ := dumpIndex_labels w days outputFile L henv hpath hL
    rw [hsave] at h1 ht
    simp only [Option.map_none'] at h1
    rw [h1, ht]
    refine ⟨rfl, rfl, ?_⟩
    simp

/-- An instance of C2: the labels `a` and `b`, the fetch of `a` gives `x`, `y`, the fetch of `b` fails. -/
theorem dumpIndex_snapshot_witness :
    (Getenv Example.partialWorld.LOKI_ADDR ≠ [] ∧ Example.partialWorld.logcliInPath = true ∧
      (getLabels Example.partialWorld 0 30).1 = .ok [lit "a", lit "b"] ∧
      [lit "a", lit "b"].Nodup ∧
      (getLabelValues Example.partialWorld 1 (lit "a") 30).1 = .ok [lit "x", lit "y"] ∧
      (getLabelValues Example.partialWorld 2 (lit "b") 30).1 =
        .error (.valuesCommandFailed (lit "b") Example.exitStatus1)) ∧
    (∃ snap : IndexData,
      savedSnapshots (dumpIndex Example.partialWorld 30 Example.file).2 = [snap] ∧
      snap.Labels = [lit "a", lit "b"] ∧ snap.Days = 30 ∧
      (∀ k, snap.Values.get k =
        if k ∈ [lit "a", lit "b"] then
          (match Example.partialOutcome k with | .ok values => some values | .error _ => none)
        else none) ∧
      snap.Values.keys.Nodup ∧
      (∀ jsonData, Example.partialWorld.marshalIndent snap = .ok jsonData →
        Example.partialWorld.writeFile Example.file jsonData = none →
          (dumpIndex Example.partialWorld 30 Example.file).1 = none ∧
            exitStatus (dumpIndex Example.partialWorld 30 Example.file).1 = 0 ∧
            Event.writeFile Example.file jsonData ∈
              (dumpIndex Example.partialWorld 30 Example.file).2)) ∧
    savedSnapshots (dumpIndex Example.partialWorld 30 Example.file).2 =
      [{ Labels := [lit "a", lit "b"], Values := [(lit "a", [lit "x", lit "y"])],
         DumpedAt := 0, Days := 30 }] ∧
    (dumpIndex Example.partialWorld 30 Example.file).1 = none :=
  ⟨⟨by decide, rfl, rfl, by decide, rfl, rfl⟩,
    dumpIndex_snapshot Example.partialWorld 30 Example.file [lit "a", lit "b"]
      Example.partialOutcome (by decide) rfl rfl (by decide)
      (by
        intro i k h
        match i, h with
        | 0, h =>
          simp only [List.getElem?_cons_zero, Option.some.injEq] at h
          subst h
          rfl
        | 1, h =>
          simp only [List.getElem?_cons_succ, List.getElem?_cons_zero, Option.some.injEq] at h
          subst h
          rfl
        | i + 2, h => simp at h),
    by decide, by decide⟩

/-- C3: when both precondition checks pass and `getLabels` returns an error,
`dumpIndex` returns an error (exit status 1); `getLabelValues` and `saveIndexData`
are never called and no file is written. -/
theorem dumpIndex_getLabels_fails (w : World) (days : Int) (outputFile : GoString)
    (err : GoError) (henv : Getenv w.LOKI_ADDR ≠ []) (hpath : w.logcliInPath = true)
    (hL : (getLabels w 0 days).1 = .error err) :
    (dumpIndex w days outputFile).1 = some (.getLabelsFailed err) ∧
      exitStatus (dumpIndex w days outputFile).1 = 1 ∧
      ∀ e ∈ (dumpIndex w days outputFile).2,
        e.isCallGetLabelValues = false ∧ e.isCallSaveIndexData = false ∧
          e.isWriteFile = false := by
  rw [dumpIndex_getLabels_error w days outputFile err henv hpath hL]
  refine ⟨rfl, rfl, ?_⟩
  intro e he
  simp only [List.mem_cons, List.mem_singleton, List.not_mem_nil, or_false] at he
  rcases he with rfl | rfl | rfl | rfl | rfl | rfl <;> exact ⟨rfl, rfl, rfl⟩

/-- An instance of C3: the command `logcli labels` exits with status 1. -/
theorem dumpIndex_getLabels_fails_witness :
    (Getenv Example.failingWorld.LOKI_ADDR ≠ [] ∧ Example.failingWorld.logcliInPath = true ∧
      (getLabels Example.failingWorld 0 30).1 =
        .error (.labelsCommandFailed Example.exitStatus1)) ∧
    ((dumpIndex Example.failingWorld 30 Example.file).1 =
        some (.getLabelsFailed (.labelsCommandFailed Example.exitStatus1)) ∧
      exitStatus (dumpIndex Example.failingWorld 30 Example.file).1 = 1 ∧
      ∀ e ∈ (dumpIndex Example.failingWorld 30 Example.file).2,
        e.isCallGetLabelValues = false ∧ e.isCallSaveIndexData = false ∧
          e.isWriteFile = false) :=
  ⟨⟨by decide, rfl, rfl⟩,
    dumpIndex_getLabels_fails Example.failingWorld 30 Example.file _ (by decide) rfl rfl⟩

/-- C4: when `LOKI_ADDR` is unset or empty, `dumpIndex` returns the error whose
message is `LOKI_ADDR environment variable is not set` (exit status 1) and the run
has no event at all: no process is spawned, neither `getLabels` nor
`getLabelValues` is called, no file is written. -/
theorem dumpIndex_LOKI_ADDR_not_set (w : World) (days : Int) (outputFile : GoString)
    (h : w.LOKI_ADDR = none ∨ w.LOKI_ADDR = some []) :
    ∃ err, (dumpIndex w days outputFile).1 = some err ∧
      err.Error = lit "LOKI_ADDR environment variable is not set" ∧
      exitStatus (dumpIndex w days outputFile).1 = 1 ∧
      (dumpIndex w days outputFile).2 = [] ∧
      ∀ e ∈ (dumpIndex w days outputFile).2,
        e.isSpawn = false ∧ e.isWriteFile = false ∧ e.isCallGetLabels = false ∧
          e.isCallGetLabelValues = false := by
  have henv : Getenv w.LOKI_ADDR = [] := by
    rcases h with h | h <;> rw [h] <;> rfl
  rw [dumpIndex_unset w days outputFile henv]
  refine ⟨.lokiAddrNotSet, rfl, rfl, rfl, rfl, ?_⟩
  intro e he
  cases he

/-- An instance of C4: the variable is unset. -/
theorem dumpIndex_LOKI_ADDR_not_set_witness :
    (Example.unsetWorld.LOKI_ADDR = none ∨ Example.unsetWorld.LOKI_ADDR = some []) ∧
    ∃ err, (dumpIndex Example.unsetWorld 7 Example.file).1 = some err ∧
      err.Error = lit "LOKI_ADDR environment variable is not set" ∧
      exitStatus (dumpIndex Example.unsetWorld 7 Example.file).1 = 1 ∧
      (dumpIndex Example.unsetWorld 7 Example.file).2 = [] ∧
      ∀ e ∈ (dumpIndex Example.unsetWorld 7 Example.file).2,
        e.isSpawn = false ∧ e.isWriteFile = false ∧ e.isCallGetLabels = false ∧
          e.isCallGetLabelValues = false :=
  ⟨Or.inl rfl, dumpIndex_LOKI_ADDR_not_set Example.unsetWorld 7 Example.file (Or.inl rfl)⟩

theorem stateAfter_keys (w : World) (days : Int) (L done : List GoString) (k : GoString)
    (h : k ∈ (stateAfter w days L done).Values.keys) : k ∈ done := by
  unfold stateAfter at h
  rcases labelLoop_keys w days L.length done _ 0 k h with h' | h'
  · simp [GoMap.keys, GoMap.empty] at h'
  · exact h'

/-- C5: every key of the `Values` map of the snapshot handed to `saveIndexData` is
an element of its `Labels`, whatever `getLabels` and the calls of `getLabelValues`
returned; and after every iteration of the loop over the labels, every key of the
map is one of the labels processed so far. -/
theorem values_keys_subset_labels (w : World) (days : Int) (outputFile : GoString) :
    (∀ snap ∈ savedSnapshots (dumpIndex w days outputFile).2,
      ∀ k ∈ snap.Values.keys, k ∈ snap.Labels) ∧
    (∀ (L : List GoString) (j : Nat),
      (∀ k ∈ (stateAfter w days L (L.take j)).Values.keys, k ∈ L.take j ∧ k ∈ L) ∧
      stateAfter w days L L =
        labelLoop w days L.length (stateAfter w days L (L.take j)) (0 + (L.take j).length)
          (L.drop j)) := by
  constructor
  · intro snap hsnap k hk
    obtain ⟨L, -, -, -, rfl⟩ := savedSnapshots_dumpIndex w days outputFile snap hsnap
    exact stateAfter_keys w days L L k hk
  · intro L j
    constructor
    · intro k hk
      have := stateAfter_keys w days L (L.take j) k hk
      exact ⟨this, List.mem_of_mem_take this⟩
    · unfold stateAfter
      rw [← labelLoop_append, List.take_append_drop]

/-- An instance of C5: the key `a` of the example snapshot, and after the first iteration. -/
theorem values_keys_subset_labels_witness :
    lit "a" ∈ [lit "a", lit "b"] ∧
    ((lit "a" ∈ [lit "a", lit "b"].take 1 ∧ lit "a" ∈ [lit "a", lit "b"]) ∧
      (stateAfter Example.partialWorld 30 [lit "a", lit "b"] ([lit "a", lit "b"].take 1)).Values =
        [(lit "a", [lit "x", lit "y"])]) :=
  ⟨(values_keys_subset_labels Example.partialWorld 30 Example.file).1
      { Labels := [lit "a", lit "b"], Values := [(lit "a", [lit "x", lit "y"])],
        DumpedAt := 0, Days := 30 } (by decide) (lit "a") (by decide),
    ((values_keys_subset_labels Example.partialWorld 30 Example.file).2
      [lit "a", lit "b"] 1).1 (lit "a") (by decide), by decide⟩

/-- C6: for every label of the snapshot handed to `saveIndexData` that is not a key
of `Values`, every call of `getLabelValues` made for that label returned an error,
and for each such call the warning naming the label and the error was printed; at
least one such warning was printed. -/
theorem absent_label_was_reported (w : World) (days : Int) (outputFile : GoString) :
    ∀ snap ∈ savedSnapshots (dumpIndex w days outputFile).2,
      ∀ label ∈ snap.Labels, label ∉ snap.Values.keys →
        (∀ i, snap.Labels[i]? = some label →
          ∃ err, (getLabelValues w (i + 1) label days).1 = .error err ∧
            Event.print (.warning label err) ∈ (dumpIndex w days outputFile).2) ∧
        ∃ err, Event.print (.warning label err) ∈ (dumpIndex w days outputFile).2 := by
  intro snap hsnap label hlabel habsent
  obtain ⟨L, henv, hpath, hL, rfl⟩ := savedSnapshots_dumpIndex w days outputFile snap hsnap
  have hnone : (stateAfter w days L L).Values.get label = none := by
    by_contra hne
    exact habsent ((GoMap.mem_keys_iff _ _).mpr hne)
  have hall := (stateAfter_get_none w days L L label).mp hnone
  have hcalls : ∀ i, L[i]? = some label →
      ∃ err, (getLabelValues w (i + 1) label days).1 = .error err ∧
        Event.print (.warning label err) ∈ (dumpIndex w days outputFile).2 := by
    intro i hi
    obtain ⟨err, herr⟩ := hall i hi
    refine ⟨err, herr, ?_⟩
    apply mem_trace_dumpIndex w days outputFile L henv hpath hL
    unfold stateAfter
    apply labelLoop_warning w days L.length L _ 0 i label err hi
    show (getLabelValues w (1 + i) label days).1 = .error err
    rwa [Nat.add_comm]
  refine ⟨hcalls, ?_⟩
  obtain ⟨i, hi⟩ := List.mem_iff_getElem?.mp hlabel
  obtain ⟨err, -, hw⟩ := hcalls i hi
  exact ⟨err, hw⟩

/-- An instance of C6: the label `b`, whose fetch fails, and its warning. -/
theorem absent_label_was_reported_witness :
    ({ Labels := [lit "a", lit "b"], Values := [(lit "a", [lit "x", lit "y"])],
        DumpedAt := 0, Days := 30 } : IndexData) ∈
      savedSnapshots (dumpIndex Example.partialWorld 30 Example.file).2 ∧
    lit "b" ∈ [lit "a", lit "b"] ∧
    lit "b" ∉ GoMap.keys [(lit "a", [lit "x", lit "y"])] ∧
    ((∀ i, [lit "a", lit "b"][i]? = some (lit "b") →
        ∃ err, (getLabelValues Example.partialWorld (i + 1) (lit "b") 30).1 = .error err ∧
          Event.print (.warning (lit "b") err) ∈
            (dumpIndex Example.partialWorld 30 Example.file).2) ∧
      ∃ err, Event.print (.warning (lit "b") err) ∈
        (dumpIndex Example.partialWorld 30 Example.file).2) ∧
    Event.print (.warning (lit "b") (.valuesCommandFailed (lit "b") Example.exitStatus1)) ∈
      (dumpIndex Example.partialWorld 30 Example.file).2 :=
  ⟨by decide, by decide, by decide,
    absent_label_was_reported Example.partialWorld 30 Example.file
      { Labels := [lit "a", lit "b"], Values := [(lit "a", [lit "x", lit "y"])],
        DumpedAt := 0, Days := 30 } (by decide) (lit "b") (by decide) (by decide),
    by decide⟩

/-- C7, as the code has it: a label is absent from the `Values` map of the snapshot
when every call of `getLabelValues` made for it returned an error; in particular,
when the label list has no duplicates, every label whose call returned an error is
absent (neither with an empty sequence nor with any other). -/
theorem failed_label_absent (w : World) (days : Int) (outputFile : GoString) :
    ∀ snap ∈ savedSnapshots (dumpIndex w days outputFile).2, ∀ label : GoString,
      ((∀ i, snap.Labels[i]? = some label →
          ∃ err, (getLabelValues w (i + 1) label days).1 = .error err) →
        snap.Values.get label = none ∧ label ∉ snap.Values.keys) ∧
      (snap.Labels.Nodup → ∀ i err, snap.Labels[i]? = some label →
        (getLabelValues w (i + 1) label days).1 = .error err →
          snap.Values.get label = none ∧ label ∉ snap.Values.keys) := by
  intro snap hsnap label
  obtain ⟨L, -, -, -, rfl⟩ := savedSnapshots_dumpIndex w days outputFile snap hsnap
  have key : (∀ i, L[i]? = some label →
      ∃ err, (getLabelValues w (i + 1) label days).1 = .error err) →
      (stateAfter w days L L).Values.get label = none ∧
        label ∉ (stateAfter w days L L).Values.keys := by
    intro hall
    have hnone := (stateAfter_get_none w days L L label).mpr hall
    refine ⟨hnone, ?_⟩
    intro hmem
    exact (GoMap.mem_keys_iff _ _).mp hmem hnone
  refine ⟨key, ?_⟩
  intro hnd i err hi herr
  change L.Nodup at hnd
  change L[i]? = some label at hi
  apply key
  intro j hj
  have hlt : i < L.length := by
    by_contra hge
    rw [List.getElem?_eq_none (by omega)] at hi
    cases hi
  have hij : i = j := List.getElem?_inj hlt hnd (by rw [hi, hj])
  subst hij
  exact ⟨err, herr⟩

/-- An instance of C7 as amended: the label `b` of a duplicate-free list. -/
theorem failed_label_absent_witness :
    ({ Labels := [lit "a", lit "b"], Values := [(lit "a", [lit "x", lit "y"])],
        DumpedAt := 0, Days := 30 } : IndexData) ∈
      savedSnapshots (dumpIndex Example.partialWorld 30 Example.file).2 ∧
    [lit "a", lit "b"].Nodup ∧ [lit "a", lit "b"][1]? = some (lit "b") ∧
    (getLabelValues Example.partialWorld 2 (lit "b") 30).1 =
      .error (.valuesCommandFailed (lit "b") Example.exitStatus1) ∧
    (GoMap.get [(lit "a", [lit "x", lit "y"])] (lit "b") = none ∧
      lit "b" ∉ GoMap.keys [(lit "a", [lit "x", lit "y"])]) :=
  ⟨by decide, by decide, rfl, rfl,
    (failed_label_absent Example.partialWorld 30 Example.file
      { Labels := [lit "a", lit "b"], Values := [(lit "a", [lit "x", lit "y"])],
        DumpedAt := 0, Days := 30 } (by decide) (lit "b")).2 (by decide) 1 _ rfl rfl⟩

/-- C7 as stated fails: the label `a` is listed twice, its first call of
`getLabelValues` succeeds with `x` and its second call returns an error, and the
snapshot handed to `saveIndexData` has `a` in `Values`. -/
theorem failed_label_present_counterexample :
    savedSnapshots (dumpIndex Example.repeatedWorld 30 Example.file).2 =
      [{ Labels := [lit "a", lit "a"], Values := [(lit "a", [lit "x"])],
         DumpedAt := 0, Days := 30 }] ∧
    [lit "a", lit "a"][1]? = some (lit "a") ∧
    (getLabelValues Example.repeatedWorld 2 (lit "a") 30).1 =
      .error (.valuesCommandFailed (lit "a") Example.exitStatus1) ∧
    GoMap.get [(lit "a", [lit "x"])] (lit "a") = some [lit "x"] ∧
    lit "a" ∈ GoMap.keys [(lit "a", [lit "x"])] :=
  ⟨by decide, rfl, rfl, rfl, by decide⟩
